import Mathlib

/-!
Shallow embedding of the sudoku solver in `src/sudoku.c`.

The search engine (`find_solutions`, lines 205-347) is modelled with its
sequential semantics: the grid is a value type (`puzzle_t`), the shared
counters and the report stream are threaded through explicitly
(`gstate_t`), and the SIGINT flag is a fixed boolean of the run
configuration (`config_t`).  The thread-creation gate (lines 233-260 and
389-393) is modelled separately as a labelled transition system
(`gate_step`), since its only observable content is the protocol on the
`num_threads` counter.  Recursions that the C code bounds by the grid
size are given an explicit fuel argument; running out of fuel is a
distinguished result (`FRes.out_of_fuel`, `PRes.out_of_fuel`) about
which nothing is claimed.  Machine integers are modelled as `Nat`; the
only arithmetic where 32-bit wrap-around could differ (`pv &= ~(1 <<
sib_val)`, `num_no_value--`) is exercised below the wrap boundary on
every path the theorems speak about.
-/

/-- `NO_VALUE` sentinel (sudoku.c line 39). -/
def NO_VALUE : Nat := 255

/-- `ROW` macro (line 47). -/
def ROW (locidx : Nat) : Nat := locidx / 9

/-- `COL` macro (line 48). -/
def COL (locidx : Nat) : Nat := locidx % 9

/-- `GRID_NUM` macro (line 49). -/
def GRID_NUM (locidx : Nat) : Nat := ROW locidx / 3 * 3 + COL locidx / 3

/-- `puzzle_t` (lines 55-59): the 81 cell values (indices `0..80` are
meaningful) and the count of cells still holding `NO_VALUE`. -/
structure puzzle_t where
  value : Nat → Nat
  num_no_value : Nat

/-- The `siblings` table built once by the init routine (lines 182-195):
for a location, the other locations of the same row, column or 3x3 grid,
collected in increasing index order. -/
def siblings (locidx : Nat) : List Nat :=
  (List.range 81).filter (fun li =>
    li != locidx &&
      (ROW li == ROW locidx || COL li == COL locidx || GRID_NUM li == GRID_NUM locidx))

/-- The `pv2val` table (lines 198-200): maps `1 <<< v` to `v` for
`v = 1..9`, everything else to `0`. -/
def pv2val (pv : Nat) : Nat :=
  ((((List.range 9).map (fun k => k + 1)).find? (fun v => pv == 1 <<< v)).getD 0)

/-- Loop body of `possible_values` (lines 363-371): when the sibling
holds a value whose bit is still in the mask, clear that bit
(`pv &= ~(1 << sib_val)`, a 32-bit complement, hence the
`4294967295 ^^^ ...`) and decrement the count. -/
def pv_step (p : puzzle_t) (st : Nat × Nat) (sib : Nat) : Nat × Nat :=
  let sib_val := p.value sib
  if sib_val ≠ NO_VALUE ∧ st.1 &&& (1 <<< sib_val) ≠ 0 then
    (st.1 &&& (4294967295 ^^^ (1 <<< sib_val)), st.2 - 1)
  else st

/-- `possible_values` (lines 349-375): start from mask `0x3fe` (bits 1-9)
and count 9, then scan the 20 siblings.  Returns `(pv, num_pv)`. -/
def possible_values (p : puzzle_t) (locidx : Nat) : Nat × Nat :=
  (siblings locidx).foldl (pv_step p) (0x3fe, 9)

/-- `(best_num_pv, best_locidx, best_pv)` tracked by the scan loop
(lines 285, 300-303). -/
abbrev Best := Nat × Nat × Nat

/-- Body of the `for (locidx = 0; locidx < 81; ...)` loop of
`find_solutions` (lines 287-305) at one location.  `none` models the
`return` on a location with zero possible values. -/
def scan_step (st : puzzle_t × Bool × Best) (locidx : Nat) :
    Option (puzzle_t × Bool × Best) :=
  let p := st.1
  if p.value locidx ≠ NO_VALUE then some st
  else
    let pv := (possible_values p locidx).1
    let num_pv := (possible_values p locidx).2
    if num_pv = 0 then none
    else if num_pv = 1 then
      some (⟨Function.update p.value locidx (pv2val pv), p.num_no_value - 1⟩, true, st.2.2)
    else if num_pv < st.2.2.1 then
      some (p, st.2.1, (num_pv, locidx, pv))
    else some st

/-- The scan loop over a list of locations. -/
def scanGo : List Nat → (puzzle_t × Bool × Best) → Option (puzzle_t × Bool × Best)
  | [], st => some st
  | i :: rest, st =>
    match scan_step st i with
    | none => none
    | some st' => scanGo rest st'

/-- One full pass of the do-while body (lines 284-305): locations `0..80`
with `best_num_pv = 10` and `values_have_been_set = false` re-initialised
(lines 285-286). -/
def scan (p : puzzle_t) : Option (puzzle_t × Bool × Best) :=
  scanGo (List.range 81) (p, false, (10, 0, 0))

/-- The best-cell tracking of lines 300-304 in isolation (used to state
what the scan's `(best_num_pv, best_locidx, best_pv)` is on a pass that
makes no assignment): keep the first-seen location with the fewest
possible values. -/
def bestF (p : puzzle_t) (b : Best) (i : Nat) : Best :=
  if p.value i ≠ NO_VALUE then b
  else if (possible_values p i).2 < b.1 then
    ((possible_values p i).2, i, (possible_values p i).1)
  else b

/-- Result of the propagation fixpoint (the do-while loop, lines
284-306): `contradiction` models the `return` at line 295. -/
inductive PRes where
  | contradiction : PRes
  | out_of_fuel : PRes
  | done : puzzle_t → Best → PRes

/-- The do-while loop (lines 284-306): repeat the full scan while
`values_have_been_set`, with fuel bounding the number of passes. -/
def propagate : Nat → puzzle_t → PRes
  | 0, _ => .out_of_fuel
  | fuel + 1, p =>
    match scan p with
    | none => .contradiction
    | some (p', vhbs, best) => if vhbs then propagate fuel p' else .done p' best

/-- Run parameters: `max_solutions` (0 = infinite, line 41),
`print_interval`, and the SIGINT flag (fixed during a sequential run). -/
structure config_t where
  max_solutions : Nat
  print_interval : Nat
  ctrl_c : Bool

/-- The shared state the search mutates: the `total_solutions` counter
(line 72) and the sequence of `print_puzzle` calls (grid values and
sequence number, line 327), most recent first. -/
structure gstate_t where
  total_solutions : Nat
  reports : List ((Nat → Nat) × Nat)

/-- Lines 317-331: claim a found solution.  Increment the counter and
capture the sequence number `ts`; if a finite cap is exceeded, decrement
back and discard; otherwise report when `ts % print_interval == 0 ||
ts == 1`. -/
def claim_solution (cfg : config_t) (p : puzzle_t) (g : gstate_t) : gstate_t :=
  let ts := g.total_solutions + 1
  if cfg.max_solutions ≠ 0 ∧ ts > cfg.max_solutions then
    { g with total_solutions := ts - 1 }
  else if ts % cfg.print_interval = 0 ∨ ts = 1 then
    { total_solutions := ts, reports := (p.value, ts) :: g.reports }
  else
    { g with total_solutions := ts }

/-- Result of a `find_solutions` call: `assert_fail` models the
`assert(best_num_pv >= 2 && best_num_pv <= 9)` aborting (line 335). -/
inductive FRes where
  | ok : gstate_t → FRes
  | assert_fail : FRes
  | out_of_fuel : FRes

/-- The trial values of the recursion loop (lines 341-346): `trial_val`
from 1 to 9, kept when `best_pv & (1 << trial_val)` is set. -/
def trial_vals (best_pv : Nat) : List Nat :=
  ((List.range 9).map (fun k => k + 1)).filter (fun v => best_pv &&& (1 <<< v) != 0)

/-- Lines 340-346: for each trial value, set it at the branch location of
the fixpoint grid `p'` (whose `num_no_value` was decremented once before
the loop) and recurse.  `fs` is the recursive entry. -/
def run_trials (fs : puzzle_t → gstate_t → FRes) (p' : puzzle_t) (best_locidx : Nat) :
    List Nat → gstate_t → FRes
  | [], g => .ok g
  | v :: rest, g =>
    match fs ⟨Function.update p'.value best_locidx v, p'.num_no_value - 1⟩ g with
    | .ok g' => run_trials fs p' best_locidx rest g'
    | r => r

/-- `find_solutions` (lines 205-347), sequential semantics.  The entry
checks are lines 217-224; the thread gate (lines 233-260) forks the same
computation onto a worker and is modelled separately by `gate_step`.
The fixpoint runs with 82 passes of fuel, more than the 81 assignments
any grid admits. -/
def find_solutions (cfg : config_t) : Nat → puzzle_t → gstate_t → FRes
  | 0, _, _ => .out_of_fuel
  | fuel + 1, p, g =>
    if cfg.ctrl_c = true then .ok g
    else if cfg.max_solutions ≠ 0 ∧ g.total_solutions ≥ cfg.max_solutions then .ok g
    else
      match propagate 82 p with
      | .out_of_fuel => .out_of_fuel
      | .contradiction => .ok g
      | .done p' best =>
        if p'.num_no_value = 0 then .ok (claim_solution cfg p' g)
        else if 2 ≤ best.1 ∧ best.1 ≤ 9 then
          run_trials (fun q h => find_solutions cfg fuel q h) p' best.2.1
            (trial_vals best.2.2) g
        else .assert_fail

/-- Number of cells among `0..80` holding `NO_VALUE`. -/
def unsetCount (f : Nat → Nat) : Nat :=
  ((Finset.range 81).filter (fun i => f i = NO_VALUE)).card

/-- The data-model invariant: `num_no_value` equals the number of cells
holding the sentinel. -/
def inv_puzzle (p : puzzle_t) : Prop := p.num_no_value = unsetCount p.value

/-- Cells hold a value in 1..9 or the sentinel. -/
def wf_puzzle (p : puzzle_t) : Prop :=
  ∀ i < 81, (1 ≤ p.value i ∧ p.value i ≤ 9) ∨ p.value i = NO_VALUE

/-- No two sibling cells hold the same (set) value. -/
def consistent (p : puzzle_t) : Prop :=
  ∀ i < 81, p.value i ≠ NO_VALUE → ∀ j ∈ siblings i, p.value j ≠ p.value i

/-- Population count of a 32-bit mask. -/
def popcount (n : Nat) : Nat :=
  ((Finset.range 32).filter (fun i => n.testBit i)).card

/-- Cell indices of row `r` (lines 533-536: `rli, rli+1, ..., rli+8`). -/
def rowCells (r : Nat) : List Nat := (List.range 9).map (fun c => 9 * r + c)

/-- Cell indices of column `c` (lines 537-540). -/
def colCells (c : Nat) : List Nat := (List.range 9).map (fun r => 9 * r + c)

/-- `gli_tbl` (line 429): top-left corners of the nine 3x3 grids. -/
def gli_tbl : List Nat := [0, 3, 6, 27, 30, 33, 54, 57, 60]

/-- Cell indices of 3x3 grid `b` (lines 541-545). -/
def blockCells (b : Nat) : List Nat :=
  let gli := gli_tbl.getD b 0
  [gli, gli + 1, gli + 2, gli + 9, gli + 10, gli + 11, gli + 18, gli + 19, gli + 20]

/-- Value `v` occurs exactly once among the given cells. -/
def occursOnce (p : puzzle_t) (cells : List Nat) (v : Nat) : Prop :=
  cells.countP (fun i => p.value i == v) = 1

/-! ### The loader (`read_puzzle`, lines 422-546) -/

/-- The `"ERROR: line %d is invalid"` message of `LINE_ERROR`
(lines 431-435); `exit(1)` is modelled by `Except.error`. -/
def line_error (line_num : Nat) : String :=
  "ERROR: line " ++ toString line_num ++ " is invalid"

/-- The nine character offsets read from a data line (lines 509-517). -/
def cell_offsets : List Nat := [2, 4, 6, 10, 12, 14, 18, 20, 22]

/-- Strip trailing newline and space characters (lines 492-496). -/
def rstrip (s : List Char) : List Char :=
  (s.reverse.dropWhile (fun c => c == '\n' || c == ' ')).reverse

/-- Line 499: blank lines and lines beginning with `#` or `+` are
skipped. -/
def ignored_line (s : List Char) : Bool :=
  s.length == 0 || s.headD ' ' == '#' || s.headD ' ' == '+'

/-- The characters `PROCESS_CHAR` accepts at a cell position: a space or
a digit 1-9 (lines 440-444). -/
def valid_cell_char (c : Char) : Prop := c = ' ' ∨ ('1' ≤ c ∧ c ≤ '9')

/-- `PROCESS_CHAR` (lines 437-448) on state `(value, num_no_value,
locidx)`. -/
def process_char (value : Nat → Nat) (nnv locidx line_num : Nat) (c : Char) :
    Except String ((Nat → Nat) × Nat × Nat) :=
  if c = ' ' then .ok (Function.update value locidx NO_VALUE, nnv, locidx + 1)
  else if '1' ≤ c ∧ c ≤ '9' then
    .ok (Function.update value locidx (c.toNat - 48), nnv - 1, locidx + 1)
  else .error (line_error line_num)

/-- The nine `PROCESS_CHAR` invocations of one data line. -/
def process_line (st : (Nat → Nat) × Nat × Nat) (line_num : Nat) (s : List Char) :
    List Nat → Except String ((Nat → Nat) × Nat × Nat)
  | [] => .ok st
  | k :: rest =>
    match process_char st.1 st.2.1 st.2.2 line_num (s.getD k ' ') with
    | .error e => .error e
    | .ok st' => process_line st' line_num s rest

/-- The `while (fgets(...))` loop (lines 487-523): skip ignored lines,
reject lines that are not 25 characters long, process the nine cell
characters, and stop once 81 cells are read. -/
def read_lines : List (List Char) → (Nat → Nat) → Nat → Nat → Nat →
    Except String ((Nat → Nat) × Nat)
  | [], value, nnv, _, _ => .ok (value, nnv)
  | l :: rest, value, nnv, locidx, line_num =>
    let s := rstrip l
    if ignored_line s then read_lines rest value nnv locidx (line_num + 1)
    else if s.length ≠ 25 then .error (line_error (line_num + 1))
    else
      match process_line (value, nnv, locidx) (line_num + 1) s cell_offsets with
      | .error e => .error e
      | .ok (v', nnv', loc') =>
        if loc' = 81 then .ok (v', nnv') else read_lines rest v' nnv' loc' (line_num + 1)

/-- `CHECK2` (lines 450-470): walk a unit's nine cells with a duplicate
mask; a duplicate value in 1..9, or a value that is neither 1..9 nor
`NO_VALUE`, yields the unit's error message. -/
def check2_go (value : Nat → Nat) (msg : String) : List Nat → Nat → Except String Unit
  | [], _ => .ok ()
  | i :: rest, mask =>
    let v := value i
    if 1 ≤ v ∧ v ≤ 9 then
      if mask &&& (1 <<< v) ≠ 0 then .error msg
      else check2_go value msg rest (mask ||| (1 <<< v))
    else if v = NO_VALUE then check2_go value msg rest mask
    else .error msg

/-- `CHECK2` on a unit. -/
def check2 (value : Nat → Nat) (idxs : List Nat) (msg : String) : Except String Unit :=
  check2_go value msg idxs 0

/-- The 27 constraint units in check order (rows, then columns, then
grids, lines 533-545), each with its error message
(`"ERROR: invalid problem - <unit> <n>"`). -/
def unit_checks : List (List Nat × String) :=
  ((List.range 9).map (fun r =>
      (rowCells r, "ERROR: invalid problem - row " ++ toString r))) ++
  ((List.range 9).map (fun c =>
      (colCells c, "ERROR: invalid problem - col " ++ toString c))) ++
  ((List.range 9).map (fun b =>
      (blockCells b, "ERROR: invalid problem - grid " ++ toString b)))

/-- Run the 27 unit checks in order; the first failing unit's message is
returned. -/
def run_checks (value : Nat → Nat) : List (List Nat × String) → Except String Unit
  | [] => .ok ()
  | (idxs, msg) :: rest =>
    match check2 value idxs msg with
    | .error e => .error e
    | .ok _ => run_checks value rest

/-- `read_puzzle` (lines 422-546): initialise all 81 cells to `NO_VALUE`
with `num_no_value = 81` (lines 472-476), read the lines, then validate
every row, column and grid.  `exit(1)` is modelled by `Except.error`
carrying the printed message. -/
def read_puzzle (lines : List (List Char)) : Except String puzzle_t :=
  match read_lines lines (fun _ => NO_VALUE) 81 0 0 with
  | .error e => .error e
  | .ok (v, nnv) =>
    match run_checks v unit_checks with
    | .error e => .error e
    | .ok _ => .ok ⟨v, nnv⟩

/-- A unit is acceptable to `CHECK2`: every cell holds 1..9 or the
sentinel, and no value 1..9 occurs twice. -/
def unit_ok (value : Nat → Nat) (idxs : List Nat) : Prop :=
  (∀ i ∈ idxs, (1 ≤ value i ∧ value i ≤ 9) ∨ value i = NO_VALUE) ∧
  (∀ v, 1 ≤ v → v ≤ 9 → idxs.countP (fun i => value i == v) ≤ 1)

/-! ### The thread gate (lines 233-260 and 389-393)

All increments of `num_threads` happen inside the critical section of
`thread_create_mutex` after re-checking `num_threads < max_threads`
(lines 235-244); each forked worker decrements it exactly once when it
finishes (line 389).  The gate is modelled as a transition system:
`num_threads` is the shared counter (as a mathematical integer, so that
non-negativity is a statement, not a typing artifact) and `live` the
number of forked workers that have not yet executed their decrement. -/

structure gate_state where
  num_threads : Int
  live : Nat
  locked : Bool

/-- Atomic actions of the gate. -/
inductive gate_step (max_threads : Nat) : gate_state → gate_state → Prop
  /-- `pthread_mutex_lock` (line 235). -/
  | lock (s : gate_state) : s.locked = false → gate_step max_threads s { s with locked := true }
  /-- Re-check under the lock, increment, fork, unlock (lines 236-255). -/
  | fork (s : gate_state) : s.locked = true → s.num_threads < max_threads →
      gate_step max_threads s ⟨s.num_threads + 1, s.live + 1, false⟩
  /-- Re-check failed: unlock and continue synchronously (line 259). -/
  | skip (s : gate_state) : s.locked = true → gate_step max_threads s { s with locked := false }
  /-- A forked worker finishes and decrements (line 389). -/
  | finish (s : gate_state) : 1 ≤ s.live →
      gate_step max_threads s ⟨s.num_threads - 1, s.live - 1, s.locked⟩

/-- States reachable from the initial state (no workers, lock free). -/
def gate_reachable (max_threads : Nat) (s : gate_state) : Prop :=
  Relation.ReflTransGen (gate_step max_threads) ⟨0, 0, false⟩ s

/-! ### Concrete grids and inputs used by the witnesses -/

/-- A completely solved grid (the classic shifted pattern); all 81 cells
hold 1..9. -/
def solvedP : puzzle_t :=
  ⟨fun i => (3 * (ROW i % 3) + ROW i / 3 + COL i) % 9 + 1, 0⟩

/-- The empty grid: every cell unset. -/
def blankP : puzzle_t := ⟨fun _ => NO_VALUE, 81⟩

/-- A data line with all nine cells blank (25 characters). -/
def blankLine : List Char := "|       |       |       |".toList

/-- Nine blank data lines: the loader input for an empty puzzle. -/
def blankLines : List (List Char) := List.replicate 9 blankLine

/-- The grid the loader produces on `blankLines`. -/
def loadedBlank : puzzle_t :=
  match read_puzzle blankLines with
  | .ok p => p
  | .error _ => blankP

/-! ## Bitmask lemmas -/

lemma and_one_shift_ne_iff (x w : Nat) : x &&& (1 <<< w) ≠ 0 ↔ x.testBit w = true := by
  rw [Nat.one_shiftLeft, Nat.and_two_pow]
  have h2 : (2 : Nat) ^ w ≠ 0 := by positivity
  cases h : x.testBit w <;> simp [h2]

lemma testBit_high_false {x i : Nat} (hx : x < 1024) (hi : 10 ≤ i) : x.testBit i = false := by
  apply Nat.testBit_lt_two_pow
  calc x < 1024 := hx
    _ = 2 ^ 10 := by norm_num
    _ ≤ 2 ^ i := Nat.pow_le_pow_right (by norm_num) hi

lemma testBit_clear {x w : Nat} (hx : x < 1024) (hw : w < 10) (i : Nat) :
    (x &&& (4294967295 ^^^ (1 <<< w))).testBit i = (x.testBit i && !(i == w)) := by
  rcases lt_or_le i 32 with hi | hi
  · have h95 : (4294967295 : Nat) = 2 ^ 32 - 1 := by norm_num
    rw [Nat.testBit_land, Nat.testBit_xor, h95, Nat.testBit_two_pow_sub_one,
      Nat.one_shiftLeft]
    have hdec : decide (i < 32) = true := decide_eq_true hi
    rcases eq_or_ne w i with rfl | hne
    · rw [Nat.testBit_two_pow_self, hdec]; simp
    · rw [Nat.testBit_two_pow_of_ne hne, hdec]
      simp [Ne.symm hne]
  · have h1 : x.testBit i = false := testBit_high_false hx (by omega)
    have h2 : (x &&& (4294967295 ^^^ (1 <<< w))).testBit i = false :=
      testBit_high_false (lt_of_le_of_lt Nat.and_le_left hx) (by omega)
    rw [h1, h2]; simp

lemma clear_lt_1024 {x w : Nat} (hx : x < 1024) :
    x &&& (4294967295 ^^^ (1 <<< w)) < 1024 :=
  lt_of_le_of_lt Nat.and_le_left hx

lemma popcount_clear {x w : Nat} (hx : x < 1024) (hw : w < 10)
    (hbit : x.testBit w = true) :
    popcount (x &&& (4294967295 ^^^ (1 <<< w))) = popcount x - 1 ∧ 1 ≤ popcount x := by
  have hmem : w ∈ (Finset.range 32).filter (fun i => x.testBit i) := by
    simp only [Finset.mem_filter, Finset.mem_range]
    exact ⟨by omega, hbit⟩
  have hset : (Finset.range 32).filter (fun i => (x &&& (4294967295 ^^^ (1 <<< w))).testBit i)
      = ((Finset.range 32).filter (fun i => x.testBit i)).erase w := by
    ext j
    simp only [Finset.mem_filter, Finset.mem_erase, Finset.mem_range, testBit_clear hx hw]
    constructor
    · rintro ⟨hj, hb⟩
      rcases (Bool.and_eq_true _ _).mp hb with ⟨hb', hne⟩
      exact ⟨by simpa using hne, hj, hb'⟩
    · rintro ⟨hne, hj, hb⟩
      exact ⟨hj, by simp [hb, hne]⟩
  refine ⟨?_, Finset.card_pos.mpr ⟨w, hmem⟩⟩
  simp only [popcount]
  rw [hset, Finset.card_erase_of_mem hmem]

/-! ## Characterisation of `possible_values` -/

lemma pv_fold_spec (p : puzzle_t) (l : List Nat) :
    ∀ pv n, pv < 1024 → pv.testBit 0 = false → n = popcount pv →
    (l.foldl (pv_step p) (pv, n)).1 < 1024 ∧
    (l.foldl (pv_step p) (pv, n)).1.testBit 0 = false ∧
    (l.foldl (pv_step p) (pv, n)).2 = popcount (l.foldl (pv_step p) (pv, n)).1 ∧
    (∀ v, v < 10 → 1 ≤ v →
      ((l.foldl (pv_step p) (pv, n)).1.testBit v = true ↔
        (pv.testBit v = true ∧ ∀ s ∈ l, p.value s ≠ v))) := by
  induction l with
  | nil =>
    intro pv n h1 h2 h3
    simp only [List.foldl_nil]
    exact ⟨h1, h2, h3, fun v _ _ =>
      ⟨fun hb => ⟨hb, by simp⟩, fun hb => hb.1⟩⟩
  | cons s rest ih =>
    intro pv n h1 h2 h3
    simp only [List.foldl_cons]
    by_cases hc : p.value s ≠ NO_VALUE ∧ pv &&& (1 <<< p.value s) ≠ 0
    · have hbit : pv.testBit (p.value s) = true := (and_one_shift_ne_iff _ _).mp hc.2
      have hw10 : p.value s < 10 := by
        by_contra h
        rw [testBit_high_false h1 (by omega)] at hbit
        exact Bool.false_ne_true hbit
      have hstep : pv_step p (pv, n) s
          = (pv &&& (4294967295 ^^^ (1 <<< p.value s)), n - 1) := by
        simp only [pv_step]
        rw [if_pos hc]
      obtain ⟨hpc, hpos⟩ := popcount_clear h1 hw10 hbit
      have h1' := clear_lt_1024 (w := p.value s) h1
      have h2' : (pv &&& (4294967295 ^^^ (1 <<< p.value s))).testBit 0 = false := by
        rw [testBit_clear h1 hw10]
        simp [h2]
      have h3' : n - 1 = popcount (pv &&& (4294967295 ^^^ (1 <<< p.value s))) := by
        rw [hpc, h3]
      obtain ⟨r1, r2, r3, r4⟩ := ih _ _ h1' h2' h3'
      rw [hstep]
      refine ⟨r1, r2, r3, fun v hv10 hv1 => ?_⟩
      rw [r4 v hv10 hv1, testBit_clear h1 hw10]
      constructor
      · rintro ⟨hb, hrest⟩
        rcases (Bool.and_eq_true _ _).mp hb with ⟨hb', hne'⟩
        have hvne : v ≠ p.value s := by simpa using hne'
        refine ⟨hb', fun t ht => ?_⟩
        rcases List.mem_cons.mp ht with rfl | ht'
        · exact fun he => hvne he.symm
        · exact hrest t ht'
      · rintro ⟨hb, hall⟩
        have hne : v ≠ p.value s := fun he => hall s (List.mem_cons_self s rest) he.symm
        exact ⟨by simp [hb, hne], fun t ht => hall t (List.mem_cons_of_mem s ht)⟩
    · have hstep : pv_step p (pv, n) s = (pv, n) := by
        simp only [pv_step]
        rw [if_neg hc]
      obtain ⟨r1, r2, r3, r4⟩ := ih _ _ h1 h2 h3
      rw [hstep]
      refine ⟨r1, r2, r3, fun v hv10 hv1 => ?_⟩
      rw [r4 v hv10 hv1]
      constructor
      · rintro ⟨hb, hrest⟩
        refine ⟨hb, fun t ht => ?_⟩
        rcases List.mem_cons.mp ht with rfl | ht'
        · intro he
          apply hc
          constructor
          · rw [he]
            simp only [NO_VALUE]
            omega
          · rw [and_one_shift_ne_iff, he]
            exact hb
        · exact hrest t ht'
      · rintro ⟨hb, hall⟩
        exact ⟨hb, fun t ht => hall t (List.mem_cons_of_mem s ht)⟩

lemma possible_values_spec (p : puzzle_t) (locidx : Nat) :
    (possible_values p locidx).1 < 1024 ∧
    (possible_values p locidx).1.testBit 0 = false ∧
    (possible_values p locidx).2 = popcount (possible_values p locidx).1 ∧
    (∀ v, v < 10 → 1 ≤ v →
      ((possible_values p locidx).1.testBit v = true ↔
        ∀ s ∈ siblings locidx, p.value s ≠ v)) := by
  have h := pv_fold_spec p (siblings locidx) 0x3fe 9 (by norm_num) (by decide)
    (by simp only [popcount]; decide)
  simp only [possible_values]
  refine ⟨h.1, h.2.1, h.2.2.1, fun v hv10 hv1 => ?_⟩
  rw [h.2.2.2 v hv10 hv1]
  have hb : Nat.testBit 0x3fe v = true := by
    interval_cases v <;> decide
  simp [hb]

lemma pv_num_le_9 (p : puzzle_t) (locidx : Nat) : (possible_values p locidx).2 ≤ 9 := by
  obtain ⟨h1, h2, h3, _⟩ := possible_values_spec p locidx
  rw [h3]
  have hsub : (Finset.range 32).filter (fun i => (possible_values p locidx).1.testBit i)
      ⊆ Finset.Icc 1 9 := by
    intro j hj
    simp only [Finset.mem_filter, Finset.mem_range] at hj
    have hj10 : j < 10 := by
      by_contra h
      rw [testBit_high_false h1 (by omega)] at hj
      exact Bool.false_ne_true hj.2
    have hj1 : 1 ≤ j := by
      rcases Nat.eq_zero_or_pos j with rfl | h
      · rw [h2] at hj
        exact absurd hj.2 (by simp)
      · exact h
    simp only [Finset.mem_Icc]
    omega
  calc popcount (possible_values p locidx).1
      ≤ (Finset.Icc 1 9).card := Finset.card_le_card hsub
    _ = 9 := by decide

lemma pv2val_two_pow : ∀ w, w < 10 → 1 ≤ w → pv2val (2 ^ w) = w := by decide

lemma pv_count_one {p : puzzle_t} {locidx : Nat}
    (h : (possible_values p locidx).2 = 1) :
    ∃ w, 1 ≤ w ∧ w ≤ 9 ∧ (possible_values p locidx).1 = 2 ^ w ∧
      pv2val (possible_values p locidx).1 = w ∧
      ∀ s ∈ siblings locidx, p.value s ≠ w := by
  obtain ⟨h1, h2, h3, h4⟩ := possible_values_spec p locidx
  rw [h] at h3
  obtain ⟨w, hw⟩ := Finset.card_eq_one.mp (by simpa only [popcount] using h3.symm)
  have hwmem : w ∈ (Finset.range 32).filter
      (fun i => (possible_values p locidx).1.testBit i) := by
    rw [hw]; exact Finset.mem_singleton_self w
  simp only [Finset.mem_filter, Finset.mem_range] at hwmem
  have hw10 : w < 10 := by
    by_contra hcon
    rw [testBit_high_false h1 (by omega)] at hwmem
    exact Bool.false_ne_true hwmem.2
  have hw1 : 1 ≤ w := by
    rcases Nat.eq_zero_or_pos w with rfl | hpos
    · rw [h2] at hwmem
      exact absurd hwmem.2 (by simp)
    · exact hpos
  have heq : (possible_values p locidx).1 = 2 ^ w := by
    apply Nat.eq_of_testBit_eq
    intro i
    rcases lt_or_le i 32 with hi | hi
    · have hiff : (possible_values p locidx).1.testBit i = true ↔ i = w := by
        constructor
        · intro hb
          have : i ∈ (Finset.range 32).filter
              (fun j => (possible_values p locidx).1.testBit j) := by
            simp only [Finset.mem_filter, Finset.mem_range]
            exact ⟨hi, hb⟩
          rw [hw] at this
          exact Finset.mem_singleton.mp this
        · rintro rfl
          exact hwmem.2
      rcases eq_or_ne i w with rfl | hne
      · rw [hiff.mpr rfl, Nat.testBit_two_pow_self]
      · rw [Nat.testBit_two_pow_of_ne (Ne.symm hne)]
        cases hb : (possible_values p locidx).1.testBit i
        · rfl
        · exact absurd (hiff.mp hb) hne
    · rw [testBit_high_false h1 (by omega),
        testBit_high_false (show (2:Nat)^w < 1024 by
          calc (2:Nat)^w ≤ 2^9 := Nat.pow_le_pow_right (by norm_num) (by omega)
            _ < 1024 := by norm_num) (by omega)]
  refine ⟨w, hw1, by omega, heq, by rw [heq]; exact pv2val_two_pow w hw10 hw1, ?_⟩
  exact (h4 w hw10 hw1).mp hwmem.2

/-! ## The `siblings` table -/

lemma mem_siblings {i j : Nat} :
    j ∈ siblings i ↔ j < 81 ∧ j ≠ i ∧
      (ROW j = ROW i ∨ COL j = COL i ∨ GRID_NUM j = GRID_NUM i) := by
  simp only [siblings, List.mem_filter, List.mem_range, Bool.and_eq_true, bne_iff_ne,
    Bool.or_eq_true, beq_iff_eq]
  tauto

lemma siblings_symm {i j : Nat} (hi : i < 81) (hj : j ∈ siblings i) : i ∈ siblings j := by
  rw [mem_siblings] at hj ⊢
  refine ⟨hi, Ne.symm hj.2.1, ?_⟩
  rcases hj.2.2 with h | h | h
  · exact Or.inl h.symm
  · exact Or.inr (Or.inl h.symm)
  · exact Or.inr (Or.inr h.symm)

lemma self_not_mem_siblings (i : Nat) : i ∉ siblings i := by
  rw [mem_siblings]
  rintro ⟨-, h, -⟩
  exact h rfl

lemma siblings_length : ∀ i, i < 81 → (siblings i).length = 20 := by decide

/-! ## Assignment lemmas -/

lemma unsetCount_update {f : Nat → Nat} {i v : Nat} (hi : i < 81)
    (hunset : f i = NO_VALUE) (hv : v ≠ NO_VALUE) :
    unsetCount (Function.update f i v) = unsetCount f - 1 ∧ 1 ≤ unsetCount f := by
  have hmem : i ∈ (Finset.range 81).filter (fun j => f j = NO_VALUE) := by
    simp only [Finset.mem_filter, Finset.mem_range]
    exact ⟨hi, hunset⟩
  have hset : (Finset.range 81).filter (fun j => Function.update f i v j = NO_VALUE)
      = ((Finset.range 81).filter (fun j => f j = NO_VALUE)).erase i := by
    ext j
    simp only [Finset.mem_filter, Finset.mem_erase, Finset.mem_range]
    rcases eq_or_ne j i with rfl | hne
    · simp [Function.update_same, hv]
    · simp [Function.update_noteq hne, hne]
  constructor
  · simp only [unsetCount]
    rw [hset, Finset.card_erase_of_mem hmem]
  · exact Finset.card_pos.mpr ⟨i, hmem⟩

lemma unsetCount_pos {f : Nat → Nat} {i : Nat} (hi : i < 81) (hunset : f i = NO_VALUE) :
    1 ≤ unsetCount f :=
  Finset.card_pos.mpr ⟨i, by
    simp only [Finset.mem_filter, Finset.mem_range]
    exact ⟨hi, hunset⟩⟩

lemma unsetCount_zero_iff {f : Nat → Nat} :
    unsetCount f = 0 ↔ ∀ i < 81, f i ≠ NO_VALUE := by
  simp only [unsetCount, Finset.card_eq_zero, Finset.filter_eq_empty_iff, Finset.mem_range]

lemma assign_preserves_inv {p : puzzle_t} {i v : Nat} (hi : i < 81)
    (hunset : p.value i = NO_VALUE) (hv : v ≠ NO_VALUE) (hinv : inv_puzzle p) :
    inv_puzzle ⟨Function.update p.value i v, p.num_no_value - 1⟩ := by
  obtain ⟨h1, _⟩ := unsetCount_update hi hunset hv
  simp only [inv_puzzle] at hinv ⊢
  rw [h1, hinv]

lemma assign_preserves_wf {p : puzzle_t} {i v m : Nat}
    (hv1 : 1 ≤ v) (hv9 : v ≤ 9) (hwf : wf_puzzle p) :
    wf_puzzle ⟨Function.update p.value i v, m⟩ := by
  intro j hj
  simp only
  rcases eq_or_ne j i with rfl | hne
  · rw [Function.update_same]
    exact Or.inl ⟨hv1, hv9⟩
  · rw [Function.update_noteq hne]
    exact hwf j hj

lemma assign_preserves_consistent {p : puzzle_t} {i v m : Nat} (hi : i < 81)
    (hfree : ∀ s ∈ siblings i, p.value s ≠ v) (hcons : consistent p) :
    consistent ⟨Function.update p.value i v, m⟩ := by
  intro a ha hset b hb
  simp only at hset ⊢
  rcases eq_or_ne a i with rfl | hai
  · rw [Function.update_same]
    have hbne : b ≠ a := fun he => self_not_mem_siblings a (he ▸ hb)
    rw [Function.update_noteq hbne]
    exact hfree b hb
  · rw [Function.update_noteq hai] at hset ⊢
    rcases eq_or_ne b i with rfl | hbi
    · rw [Function.update_same]
      have hab : a ∈ siblings b := siblings_symm ha hb
      intro he
      exact hfree a hab he.symm
    · rw [Function.update_noteq hbi]
      exact hcons a ha hset b hb

/-! ## The scan loop -/

lemma scan_step_cases {st st' : puzzle_t × Bool × Best} {i : Nat}
    (h : scan_step st i = some st') :
    st'.1 = st.1 ∨
    (st.1.value i = NO_VALUE ∧ (possible_values st.1 i).2 = 1 ∧ st'.2.1 = true ∧
      ∃ w, 1 ≤ w ∧ w ≤ 9 ∧ (∀ s ∈ siblings i, st.1.value s ≠ w) ∧
        st'.1 = ⟨Function.update st.1.value i w, st.1.num_no_value - 1⟩) := by
  simp only [scan_step] at h
  by_cases h1 : st.1.value i ≠ NO_VALUE
  · rw [if_pos h1] at h
    left
    rw [(Option.some.injEq _ _).mp h.symm]  -- st' = st
  · rw [if_neg h1] at h
    push_neg at h1
    by_cases h2 : (possible_values st.1 i).2 = 0
    · rw [if_pos h2] at h
      exact absurd h (by simp)
    · rw [if_neg h2] at h
      by_cases h3 : (possible_values st.1 i).2 = 1
      · rw [if_pos h3] at h
        obtain ⟨w, hw1, hw9, heq, hval, hfree⟩ := pv_count_one h3
        right
        have hst' := (Option.some.injEq _ _).mp h
        refine ⟨h1, h3, ?_, w, hw1, hw9, hfree, ?_⟩
        · rw [← hst']
        · rw [← hst']
          simp only
          rw [hval]
      · rw [if_neg h3] at h
        left
        by_cases h4 : (possible_values st.1 i).2 < st.2.2.1
        · rw [if_pos h4] at h
          rw [← (Option.some.injEq _ _).mp h]
        · rw [if_neg h4] at h
          rw [← (Option.some.injEq _ _).mp h]

lemma scanGo_vb_mono {l : List Nat} :
    ∀ {st st' : puzzle_t × Bool × Best}, scanGo l st = some st' →
      st.2.1 = true → st'.2.1 = true := by
  induction l with
  | nil =>
    intro st st' h ht
    cases h
    exact ht
  | cons i rest ih =>
    intro st st' h ht
    rw [scanGo] at h
    cases hstep : scan_step st i with
    | none => rw [hstep] at h; exact absurd h (by simp)
    | some st1 =>
      rw [hstep] at h
      apply ih h
      -- vb is never reset to false by a step
      simp only [scan_step] at hstep
      by_cases h1 : st.1.value i ≠ NO_VALUE
      · rw [if_pos h1] at hstep
        rw [← (Option.some.injEq _ _).mp hstep]
        exact ht
      · rw [if_neg h1] at hstep
        by_cases h2 : (possible_values st.1 i).2 = 0
        · rw [if_pos h2] at hstep; exact absurd hstep (by simp)
        · rw [if_neg h2] at hstep
          by_cases h3 : (possible_values st.1 i).2 = 1
          · rw [if_pos h3] at hstep
            rw [← (Option.some.injEq _ _).mp hstep]
          · rw [if_neg h3] at hstep
            by_cases h4 : (possible_values st.1 i).2 < st.2.2.1
            · rw [if_pos h4] at hstep
              rw [← (Option.some.injEq _ _).mp hstep]
              exact ht
            · rw [if_neg h4] at hstep
              rw [← (Option.some.injEq _ _).mp hstep]
              exact ht

lemma scanGo_false {l : List Nat} :
    ∀ (st st' : puzzle_t × Bool × Best), scanGo l st = some st' → st'.2.1 = false →
      st'.1 = st.1 ∧ st.2.1 = false ∧
      (∀ i ∈ l, st.1.value i = NO_VALUE → 2 ≤ (possible_values st.1 i).2) ∧
      st'.2.2 = l.foldl (bestF st.1) st.2.2 := by
  induction l with
  | nil =>
    intro st st' h hf
    cases h
    exact ⟨rfl, hf, by simp, rfl⟩
  | cons i rest ih =>
    intro st st' h hf
    rw [scanGo] at h
    cases hstep : scan_step st i with
    | none => rw [hstep] at h; exact absurd h (by simp)
    | some st1 =>
      rw [hstep] at h
      obtain ⟨ih1, ih2, ih3, ih4⟩ := ih _ _ h hf
      -- analyse the step, knowing the final vb is false
      simp only [scan_step] at hstep
      by_cases h1 : st.1.value i ≠ NO_VALUE
      · rw [if_pos h1] at hstep
        have hst1 : st1 = st := ((Option.some.injEq _ _).mp hstep).symm
        subst hst1
        refine ⟨ih1, ih2, ?_, ?_⟩
        · intro j hj hun
          rcases List.mem_cons.mp hj with rfl | hj'
          · exact absurd hun h1
          · exact ih3 j hj' hun
        · rw [List.foldl_cons, bestF, if_pos h1]
          exact ih4
      · rw [if_neg h1] at hstep
        push_neg at h1
        by_cases h2 : (possible_values st.1 i).2 = 0
        · rw [if_pos h2] at hstep; exact absurd hstep (by simp)
        · rw [if_neg h2] at hstep
          by_cases h3 : (possible_values st.1 i).2 = 1
          · rw [if_pos h3] at hstep
            have hst1 : st1.2.1 = true := by
              rw [← (Option.some.injEq _ _).mp hstep]
            rw [scanGo_vb_mono h hst1] at hf
            exact absurd hf (by simp)
          · rw [if_neg h3] at hstep
            by_cases h4 : (possible_values st.1 i).2 < st.2.2.1
            · rw [if_pos h4] at hstep
              have hst1 : st1 = (st.1, st.2.1, (possible_values st.1 i).2, i,
                  (possible_values st.1 i).1) := ((Option.some.injEq _ _).mp hstep).symm
              subst hst1
              refine ⟨ih1, ih2, ?_, ?_⟩
              · intro j hj hun
                rcases List.mem_cons.mp hj with rfl | hj'
                · omega
                · exact ih3 j hj' hun
              · rw [List.foldl_cons, bestF, if_neg (by simpa using h1), if_pos h4]
                exact ih4
            · rw [if_neg h4] at hstep
              have hst1 : st1 = st := ((Option.some.injEq _ _).mp hstep).symm
              subst hst1
              refine ⟨ih1, ih2, ?_, ?_⟩
              · intro j hj hun
                rcases List.mem_cons.mp hj with rfl | hj'
                · omega
                · exact ih3 j hj' hun
              · rw [List.foldl_cons, bestF, if_neg (by simpa using h1), if_neg h4]
                exact ih4

lemma scanGo_preserves {l : List Nat} :
    ∀ (st st' : puzzle_t × Bool × Best), (∀ i ∈ l, i < 81) → scanGo l st = some st' →
      (∀ j, st.1.value j ≠ NO_VALUE → st'.1.value j = st.1.value j) ∧
      (inv_puzzle st.1 → inv_puzzle st'.1) ∧
      (wf_puzzle st.1 → wf_puzzle st'.1) ∧
      (consistent st.1 → consistent st'.1) := by
  induction l with
  | nil =>
    intro st st' _ h
    cases h
    exact ⟨fun _ _ => rfl, id, id, id⟩
  | cons i rest ih =>
    intro st st' hl h
    rw [scanGo] at h
    cases hstep : scan_step st i with
    | none => rw [hstep] at h; exact absurd h (by simp)
    | some st1 =>
      rw [hstep] at h
      have hi : i < 81 := hl i (List.mem_cons_self i rest)
      have hrest : ∀ j ∈ rest, j < 81 := fun j hj => hl j (List.mem_cons_of_mem i hj)
      obtain ⟨ih1, ih2, ih3, ih4⟩ := ih _ _ hrest h
      rcases scan_step_cases hstep with heq | ⟨hun, _, _, w, hw1, hw9, hfree, hasgn⟩
      · rw [heq] at ih1 ih2 ih3 ih4
        exact ⟨ih1, ih2, ih3, ih4⟩
      · refine ⟨?_, ?_, ?_, ?_⟩
        · intro j hset
          have hji : j ≠ i := fun he => hset (he ▸ hun)
          have h1 : st1.1.value j = st.1.value j := by
            rw [hasgn]
            simp only
            rw [Function.update_noteq hji]
          rw [← h1]
          exact (h1 ▸ ih1 j (h1 ▸ hset))
        · intro hinv
          apply ih2
          rw [hasgn]
          exact assign_preserves_inv hi hun (by simp only [NO_VALUE]; omega) hinv
        · intro hwf
          apply ih3
          rw [hasgn]
          exact assign_preserves_wf hw1 hw9 hwf
        · intro hcons
          apply ih4
          rw [hasgn]
          exact assign_preserves_consistent hi hfree hcons

/-! ## The propagation fixpoint -/

lemma propagate_done_scan {f : Nat} :
    ∀ {p p' : puzzle_t} {b : Best}, propagate f p = .done p' b →
      scan p' = some (p', false, b) := by
  induction f with
  | zero => intro p p' b h; exact absurd h (by simp [propagate])
  | succ f ih =>
    intro p p' b h
    rw [propagate] at h
    cases hscan : scan p with
    | none => rw [hscan] at h; exact absurd h (by simp)
    | some st =>
      obtain ⟨q, vb, b0⟩ := st
      rw [hscan] at h
      have h' : (if vb = true then propagate f q else PRes.done q b0) = .done p' b := h
      by_cases hv : vb = true
      · rw [if_pos hv] at h'
        exact ih h'
      · rw [if_neg hv] at h'
        injection h' with he1 he2
        have hvf : vb = false := by simpa using hv
        rw [hvf, he1, he2] at hscan
        have h5 := (scanGo_false _ (p', false, b) hscan rfl).1
        simp only at h5
        rw [h5] at hscan ⊢
        exact hscan

lemma propagate_preserves {f : Nat} :
    ∀ {p p' : puzzle_t} {b : Best}, propagate f p = .done p' b →
      (∀ j, p.value j ≠ NO_VALUE → p'.value j = p.value j) ∧
      (inv_puzzle p → inv_puzzle p') ∧
      (wf_puzzle p → wf_puzzle p') ∧
      (consistent p → consistent p') := by
  induction f with
  | zero => intro p p' b h; exact absurd h (by simp [propagate])
  | succ f ih =>
    intro p p' b h
    rw [propagate] at h
    cases hscan : scan p with
    | none => rw [hscan] at h; exact absurd h (by simp)
    | some st =>
      obtain ⟨q, vb, b0⟩ := st
      rw [hscan] at h
      have hq := scanGo_preserves _ (q, vb, b0)
        (fun i hi => List.mem_range.mp hi) hscan
      simp only at hq
      have h' : (if vb = true then propagate f q else PRes.done q b0) = .done p' b := h
      by_cases hv : vb = true
      · rw [if_pos hv] at h'
        obtain ⟨r1, r2, r3, r4⟩ := ih h'
        refine ⟨?_, fun hi => r2 (hq.2.1 hi), fun hw => r3 (hq.2.2.1 hw),
          fun hc => r4 (hq.2.2.2 hc)⟩
        intro j hset
        rw [r1 j (by rw [hq.1 j hset]; exact hset), hq.1 j hset]
      · rw [if_neg hv] at h'
        injection h' with he1 he2
        subst he1
        exact hq

/-! ## The branch cell -/

lemma bestF_fold_props (p : puzzle_t) :
    ∀ k b, b = (List.range k).foldl (bestF p) (10, 0, 0) →
      (∀ i, i < k → p.value i = NO_VALUE →
        b.1 ≤ (possible_values p i).2 ∧ (i < b.2.1 → b.1 < (possible_values p i).2)) ∧
      ((b = (10, 0, 0) ∧ ∀ i, i < k → p.value i ≠ NO_VALUE) ∨
        (b.2.1 < k ∧ p.value b.2.1 = NO_VALUE ∧
          b.1 = (possible_values p b.2.1).2 ∧ b.2.2 = (possible_values p b.2.1).1 ∧
          b.1 ≤ 9)) := by
  intro k
  induction k with
  | zero =>
    intro b hb
    simp only [List.range_zero, List.foldl_nil] at hb
    subst hb
    exact ⟨fun i hi _ => absurd hi (by omega), Or.inl ⟨rfl, fun i hi => absurd hi (by omega)⟩⟩
  | succ k ih =>
    intro b hb
    rw [List.range_succ, List.foldl_append, List.foldl_cons, List.foldl_nil] at hb
    obtain ⟨ihmin, ihdisj⟩ := ih _ rfl
    by_cases hset : p.value k ≠ NO_VALUE
    · rw [bestF, if_pos hset] at hb
      subst hb
      refine ⟨fun i hi hun => ?_, ?_⟩
      · rcases Nat.lt_succ_iff_lt_or_eq.mp hi with hik | rfl
        · exact ihmin i hik hun
        · exact absurd hun hset
      · rcases ihdisj with ⟨h1, h2⟩ | ⟨h1, h2, h3, h4, h5⟩
        · refine Or.inl ⟨h1, fun i hi => ?_⟩
          rcases Nat.lt_succ_iff_lt_or_eq.mp hi with hik | rfl
          · exact h2 i hik
          · exact hset
        · exact Or.inr ⟨by omega, h2, h3, h4, h5⟩
    · push_neg at hset
      rw [bestF, if_neg (by simpa using hset)] at hb
      have hnk9 : (possible_values p k).2 ≤ 9 := pv_num_le_9 p k
      by_cases hlt : (possible_values p k).2
          < ((List.range k).foldl (bestF p) (10, 0, 0)).1
      · rw [if_pos hlt] at hb
        subst hb
        refine ⟨fun i hi hun => ?_, ?_⟩
        · rcases Nat.lt_succ_iff_lt_or_eq.mp hi with hik | rfl
          · have h6 := (ihmin i hik hun).1
            refine ⟨?_, fun _ => ?_⟩
            · show (possible_values p k).2 ≤ (possible_values p i).2
              omega
            · show (possible_values p k).2 < (possible_values p i).2
              omega
          · exact ⟨le_refl _, fun hc => absurd hc (lt_irrefl _)⟩
        · exact Or.inr ⟨Nat.lt_succ_self k, hset, rfl, rfl, hnk9⟩
      · rw [if_neg hlt] at hb
        subst hb
        push_neg at hlt
        have hne10 : ((List.range k).foldl (bestF p) (10, 0, 0)).1 ≠ 10 ∨
            (possible_values p k).2 < 10 := Or.inr (by omega)
        rcases ihdisj with ⟨h1, h2⟩ | ⟨h1, h2, h3, h4, h5⟩
        · -- best still initial: impossible, since cell k is unset and num_pv ≤ 9 < 10
          rw [h1] at hlt
          simp only at hlt
          omega
        · refine ⟨fun i hi hun => ?_, Or.inr ⟨by omega, h2, h3, h4, h5⟩⟩
          rcases Nat.lt_succ_iff_lt_or_eq.mp hi with hik | rfl
          · exact ihmin i hik hun
          · exact ⟨hlt, fun hc => absurd hc (by omega)⟩

lemma exists_unset_of_num {p : puzzle_t} (hinv : inv_puzzle p)
    (hns : p.num_no_value ≠ 0) : ∃ i, i < 81 ∧ p.value i = NO_VALUE := by
  by_contra h
  push_neg at h
  have : unsetCount p.value = 0 := unsetCount_zero_iff.mpr fun i hi => h i hi
  rw [inv_puzzle, this] at hinv
  exact hns hinv

lemma branch_best {f : Nat} {p p' : puzzle_t} {b : Best}
    (hprop : propagate f p = .done p' b) (hinv : inv_puzzle p')
    (hns : p'.num_no_value ≠ 0) :
    2 ≤ b.1 ∧ b.1 ≤ 9 ∧ b.2.1 < 81 ∧ p'.value b.2.1 = NO_VALUE ∧
    b.1 = (possible_values p' b.2.1).2 ∧ b.2.2 = (possible_values p' b.2.1).1 ∧
    (∀ i, i < 81 → p'.value i = NO_VALUE → b.1 ≤ (possible_values p' i).2) ∧
    (∀ i, i < 81 → p'.value i = NO_VALUE → i < b.2.1 → b.1 < (possible_values p' i).2) := by
  have hscan := propagate_done_scan hprop
  rw [scan] at hscan
  obtain ⟨h1, _, h3, h4⟩ := scanGo_false _ (p', false, b) hscan rfl
  simp only at h1 h3 h4
  obtain ⟨hmin, hdisj⟩ := bestF_fold_props p' 81 b h4
  obtain ⟨i0, hi0, hun0⟩ := exists_unset_of_num hinv hns
  rcases hdisj with ⟨hb0, hall⟩ | ⟨hblt, hbun, hbn, hbpv, hb9⟩
  · exact absurd hun0 (hall i0 hi0)
  · have hge2 : 2 ≤ (possible_values p' b.2.1).2 :=
      h3 b.2.1 (List.mem_range.mpr hblt) hbun
    refine ⟨by omega, hb9, hblt, hbun, hbn, hbpv, ?_, ?_⟩
    · intro i hi hun
      exact (hmin i hi hun).1
    · intro i hi hun hlt
      exact (hmin i hi hun).2 hlt

lemma scan_unset_ge2 {p p' : puzzle_t} {b : Best} {f : Nat}
    (hprop : propagate f p = .done p' b) :
    ∀ i, i < 81 → p'.value i = NO_VALUE → 2 ≤ (possible_values p' i).2 := by
  have hscan := propagate_done_scan hprop
  rw [scan] at hscan
  obtain ⟨_, _, h3, _⟩ := scanGo_false _ (p', false, b) hscan rfl
  simp only at h3
  exact fun i hi => h3 i (List.mem_range.mpr hi)

/-! ## The recursion -/

lemma trial_vals_mem {m v : Nat} :
    v ∈ trial_vals m ↔ 1 ≤ v ∧ v ≤ 9 ∧ m &&& (1 <<< v) ≠ 0 := by
  simp only [trial_vals, List.mem_filter, List.mem_map, List.mem_range, bne_iff_ne,
    ne_eq]
  constructor
  · rintro ⟨⟨k, hk, rfl⟩, hne⟩
    exact ⟨by omega, by omega, hne⟩
  · rintro ⟨h1, h9, hne⟩
    exact ⟨⟨v - 1, by omega, by omega⟩, hne⟩

lemma trial_vals_sorted (m : Nat) : List.Pairwise (· < ·) (trial_vals m) := by
  apply List.Pairwise.filter
  rw [List.pairwise_map]
  exact (List.pairwise_lt_range 9).imp (fun h => by omega)

lemma branch_unset {f : Nat} {p p' : puzzle_t} {b : Best}
    (hprop : propagate f p = .done p' b) (hb : b.1 ≠ 10) :
    p'.value b.2.1 = NO_VALUE ∧ b.2.1 < 81 ∧
    b.1 = (possible_values p' b.2.1).2 ∧ b.2.2 = (possible_values p' b.2.1).1 := by
  have hscan := propagate_done_scan hprop
  rw [scan] at hscan
  obtain ⟨_, _, _, h4⟩ := scanGo_false _ (p', false, b) hscan rfl
  simp only at h4
  obtain ⟨_, hdisj⟩ := bestF_fold_props p' 81 b h4
  rcases hdisj with ⟨hb0, _⟩ | ⟨_, h2, h3, h4', _⟩
  · exact absurd (by rw [hb0]) hb
  · exact ⟨h2, by
      obtain ⟨_, hdisj2⟩ := bestF_fold_props p' 81 b h4
      rcases hdisj2 with ⟨hb0, _⟩ | ⟨hlt, _, _, _, _⟩
      · exact absurd (by rw [hb0]) hb
      · exact hlt, h3, h4'⟩

lemma run_trials_no_assert {fs : puzzle_t → gstate_t → FRes} {p' : puzzle_t} {loc : Nat}
    (hfs : ∀ q h, inv_puzzle q → fs q h ≠ .assert_fail)
    (hinv : ∀ v, 1 ≤ v → v ≤ 9 →
      inv_puzzle ⟨Function.update p'.value loc v, p'.num_no_value - 1⟩) :
    ∀ lst g, (∀ v ∈ lst, 1 ≤ v ∧ v ≤ 9) →
      run_trials fs p' loc lst g ≠ .assert_fail := by
  intro lst
  induction lst with
  | nil => intro g _ h; rw [run_trials] at h; exact absurd h (by simp)
  | cons v rest ih =>
    intro g hv h
    rw [run_trials] at h
    obtain ⟨hv1, hv9⟩ := hv v (List.mem_cons_self v rest)
    cases hq : fs ⟨Function.update p'.value loc v, p'.num_no_value - 1⟩ g with
    | ok g1 =>
      rw [hq] at h
      exact ih g1 (fun w hw => hv w (List.mem_cons_of_mem v hw)) h
    | assert_fail => exact hfs _ g (hinv v hv1 hv9) hq
    | out_of_fuel =>
      rw [hq] at h
      exact absurd h (by simp)

lemma fs_no_assert {cfg : config_t} :
    ∀ fuel (p : puzzle_t) (g : gstate_t), inv_puzzle p →
      find_solutions cfg fuel p g ≠ .assert_fail := by
  intro fuel
  induction fuel with
  | zero => intro p g _ h; rw [find_solutions] at h; exact absurd h (by simp)
  | succ fuel ih =>
    intro p g hinv h
    rw [find_solutions] at h
    by_cases h1 : cfg.ctrl_c = true
    · rw [if_pos h1] at h; exact absurd h (by simp)
    · rw [if_neg h1] at h
      by_cases h2 : cfg.max_solutions ≠ 0 ∧ g.total_solutions ≥ cfg.max_solutions
      · rw [if_pos h2] at h; exact absurd h (by simp)
      · rw [if_neg h2] at h
        cases hp : propagate 82 p with
        | out_of_fuel => rw [hp] at h; exact absurd h (by simp)
        | contradiction => rw [hp] at h; exact absurd h (by simp)
        | done p' best =>
          rw [hp] at h
          have h' : (if p'.num_no_value = 0 then FRes.ok (claim_solution cfg p' g)
              else if 2 ≤ best.1 ∧ best.1 ≤ 9 then
                run_trials (fun q hh => find_solutions cfg fuel q hh) p' best.2.1
                  (trial_vals best.2.2) g
              else FRes.assert_fail) = FRes.assert_fail := h
          have hinv' : inv_puzzle p' := (propagate_preserves hp).2.1 hinv
          by_cases h3 : p'.num_no_value = 0
          · rw [if_pos h3] at h'; exact absurd h' (by simp)
          · rw [if_neg h3] at h'
            obtain ⟨hb2, hb9, hloc, hun, _, _, _, _⟩ := branch_best hp hinv' h3
            rw [if_pos ⟨hb2, hb9⟩] at h'
            apply run_trials_no_assert (fun q hg hq => ih q hg hq)
              (fun v hv1 hv9 =>
                assign_preserves_inv hloc hun (by simp only [NO_VALUE]; omega) hinv')
              _ g (fun v hv => ⟨(trial_vals_mem.mp hv).1, (trial_vals_mem.mp hv).2.1⟩) h'

lemma claim_solution_reports (cfg : config_t) (p : puzzle_t) (g : gstate_t) :
    (claim_solution cfg p g).reports = g.reports ∨
    (claim_solution cfg p g).reports = (p.value, g.total_solutions + 1) :: g.reports := by
  rw [claim_solution]
  by_cases h1 : cfg.max_solutions ≠ 0 ∧ g.total_solutions + 1 > cfg.max_solutions
  · rw [if_pos h1]
    exact Or.inl rfl
  · rw [if_neg h1]
    by_cases h2 : (g.total_solutions + 1) % cfg.print_interval = 0 ∨ g.total_solutions + 1 = 1
    · rw [if_pos h2]
      exact Or.inr rfl
    · rw [if_neg h2]
      exact Or.inl rfl

lemma run_trials_reports {fs : puzzle_t → gstate_t → FRes} {p' : puzzle_t} {loc : Nat}
    (hunset : p'.value loc = NO_VALUE)
    (hfs : ∀ q h h', fs q h = .ok h' → ∀ r ∈ h'.reports,
      r ∈ h.reports ∨ (∀ i, q.value i ≠ NO_VALUE → r.1 i = q.value i)) :
    ∀ lst g g', run_trials fs p' loc lst g = .ok g' →
      ∀ r ∈ g'.reports, r ∈ g.reports ∨
        (∀ i, p'.value i ≠ NO_VALUE → r.1 i = p'.value i) := by
  intro lst
  induction lst with
  | nil =>
    intro g g' h r hr
    rw [run_trials] at h
    cases h
    exact Or.inl hr
  | cons v rest ih =>
    intro g g' h r hr
    rw [run_trials] at h
    cases hq : fs ⟨Function.update p'.value loc v, p'.num_no_value - 1⟩ g with
    | ok g1 =>
      rw [hq] at h
      rcases ih g1 g' h r hr with hmem | hframe
      · rcases hfs _ g g1 hq r hmem with hmem' | hframe'
        · exact Or.inl hmem'
        · refine Or.inr fun i hset => ?_
          have hil : i ≠ loc := fun he => hset (he ▸ hunset)
          have hupd : Function.update p'.value loc v i = p'.value i :=
            Function.update_noteq hil _ _
          have hne : Function.update p'.value loc v i ≠ NO_VALUE := by
            rw [hupd]; exact hset
          exact (hframe' i hne).trans hupd
      · exact Or.inr hframe
    | assert_fail => rw [hq] at h; exact absurd h (by simp)
    | out_of_fuel => rw [hq] at h; exact absurd h (by simp)

lemma fs_reports {cfg : config_t} :
    ∀ fuel (p : puzzle_t) (g g' : gstate_t), find_solutions cfg fuel p g = .ok g' →
      ∀ r ∈ g'.reports, r ∈ g.reports ∨
        (∀ i, p.value i ≠ NO_VALUE → r.1 i = p.value i) := by
  intro fuel
  induction fuel with
  | zero =>
    intro p g g' h
    rw [find_solutions] at h
    exact absurd h (by simp)
  | succ fuel ih =>
    intro p g g' h r hr
    rw [find_solutions] at h
    by_cases h1 : cfg.ctrl_c = true
    · rw [if_pos h1] at h; cases h; exact Or.inl hr
    · rw [if_neg h1] at h
      by_cases h2 : cfg.max_solutions ≠ 0 ∧ g.total_solutions ≥ cfg.max_solutions
      · rw [if_pos h2] at h; cases h; exact Or.inl hr
      · rw [if_neg h2] at h
        cases hp : propagate 82 p with
        | out_of_fuel => rw [hp] at h; exact absurd h (by simp)
        | contradiction => rw [hp] at h; cases h; exact Or.inl hr
        | done p' best =>
          rw [hp] at h
          have h' : (if p'.num_no_value = 0 then FRes.ok (claim_solution cfg p' g)
              else if 2 ≤ best.1 ∧ best.1 ≤ 9 then
                run_trials (fun q hh => find_solutions cfg fuel q hh) p' best.2.1
                  (trial_vals best.2.2) g
              else FRes.assert_fail) = FRes.ok g' := h
          have hframe' : ∀ i, p.value i ≠ NO_VALUE → p'.value i = p.value i :=
            (propagate_preserves hp).1
          by_cases h3 : p'.num_no_value = 0
          · rw [if_pos h3] at h'
            cases h'
            rcases claim_solution_reports cfg p' g with he | he <;> rw [he] at hr
            · exact Or.inl hr
            · rcases List.mem_cons.mp hr with rfl | hr'
              · exact Or.inr fun i hset => hframe' i hset
              · exact Or.inl hr'
          · rw [if_neg h3] at h'
            by_cases h4 : 2 ≤ best.1 ∧ best.1 ≤ 9
            · rw [if_pos h4] at h'
              have hun : p'.value best.2.1 = NO_VALUE :=
                (branch_unset hp (by omega)).1
              rcases run_trials_reports hun (fun q hg hg' hq => ih q hg hg' hq)
                  _ g g' h' r hr with hmem | hframe
              · exact Or.inl hmem
              · refine Or.inr fun i hset => ?_
                rw [hframe i (by rw [hframe' i hset]; exact hset), hframe' i hset]
            · rw [if_neg h4] at h'
              exact absurd h' (by simp)

/-! ## Validity of completed grids -/

lemma rowCells_facts : ∀ k, k < 9 →
    (rowCells k).Nodup ∧ (rowCells k).length = 9 ∧ (∀ i ∈ rowCells k, i < 81) ∧
    (∀ i ∈ rowCells k, ∀ j ∈ rowCells k, i ≠ j →
      j ≠ i ∧ (ROW j = ROW i ∨ COL j = COL i ∨ GRID_NUM j = GRID_NUM i)) := by
  decide

lemma colCells_facts : ∀ k, k < 9 →
    (colCells k).Nodup ∧ (colCells k).length = 9 ∧ (∀ i ∈ colCells k, i < 81) ∧
    (∀ i ∈ colCells k, ∀ j ∈ colCells k, i ≠ j →
      j ≠ i ∧ (ROW j = ROW i ∨ COL j = COL i ∨ GRID_NUM j = GRID_NUM i)) := by
  decide

lemma blockCells_facts : ∀ k, k < 9 →
    (blockCells k).Nodup ∧ (blockCells k).length = 9 ∧ (∀ i ∈ blockCells k, i < 81) ∧
    (∀ i ∈ blockCells k, ∀ j ∈ blockCells k, i ≠ j →
      j ≠ i ∧ (ROW j = ROW i ∨ COL j = COL i ∨ GRID_NUM j = GRID_NUM i)) := by
  decide

lemma unit_occursOnce {p : puzzle_t} {cells : List Nat}
    (hnd : cells.Nodup) (hlen : cells.length = 9)
    (hsib : ∀ i ∈ cells, ∀ j ∈ cells, i ≠ j → j ∈ siblings i)
    (hcomp : ∀ i ∈ cells, 1 ≤ p.value i ∧ p.value i ≤ 9)
    (hlt : ∀ i ∈ cells, i < 81)
    (hcons : consistent p) :
    ∀ v, 1 ≤ v → v ≤ 9 → occursOnce p cells v := by
  intro v hv1 hv9
  have hinj : Set.InjOn p.value cells.toFinset := by
    intro a ha b hb he
    by_contra hne
    have hamem : a ∈ cells := List.mem_toFinset.mp ha
    have hbmem : b ∈ cells := List.mem_toFinset.mp hb
    have hbs : b ∈ siblings a := hsib a hamem b hbmem hne
    have haset : p.value a ≠ NO_VALUE := by
      have := hcomp a hamem
      simp only [NO_VALUE]
      omega
    exact hcons a (hlt a hamem) haset b hbs he.symm
  have hcardS : cells.toFinset.card = 9 := by
    rw [List.toFinset_card_of_nodup hnd, hlen]
  have hsubset : cells.toFinset.image p.value ⊆ Finset.Icc 1 9 := by
    intro w hw
    obtain ⟨a, ha, rfl⟩ := Finset.mem_image.mp hw
    have := hcomp a (List.mem_toFinset.mp ha)
    simp only [Finset.mem_Icc]
    omega
  have hcardimg : (cells.toFinset.image p.value).card = 9 := by
    rw [Finset.card_image_of_injOn hinj, hcardS]
  have himg : cells.toFinset.image p.value = Finset.Icc 1 9 :=
    Finset.eq_of_subset_of_card_le hsubset (by rw [hcardimg]; decide)
  have hvmem : v ∈ cells.toFinset.image p.value := by
    rw [himg]
    simp only [Finset.mem_Icc]
    omega
  obtain ⟨i0, hi0S, hi0v⟩ := Finset.mem_image.mp hvmem
  have hfilter : cells.toFinset.filter (fun i => p.value i = v) = {i0} := by
    ext j
    simp only [Finset.mem_filter, Finset.mem_singleton]
    constructor
    · rintro ⟨hjS, hjv⟩
      exact hinj hjS hi0S (by rw [hjv, hi0v])
    · rintro rfl
      exact ⟨hi0S, hi0v⟩
  rw [occursOnce, List.countP_eq_length_filter]
  have hndf : (cells.filter (fun i => p.value i == v)).Nodup := hnd.filter _
  rw [← List.toFinset_card_of_nodup hndf, List.toFinset_filter]
  have : (cells.toFinset.filter (fun i => (p.value i == v) = true))
      = cells.toFinset.filter (fun i => p.value i = v) := by
    apply Finset.filter_congr
    intro j _
    simp
  rw [this, hfilter]
  rfl

lemma complete_of_inv_zero {p : puzzle_t} (hinv : inv_puzzle p)
    (hz : p.num_no_value = 0) (hwf : wf_puzzle p) :
    ∀ i < 81, 1 ≤ p.value i ∧ p.value i ≤ 9 := by
  intro i hi
  have hcnt : unsetCount p.value = 0 := by
    rw [inv_puzzle] at hinv
    omega
  have hne := unsetCount_zero_iff.mp hcnt i hi
  rcases hwf i hi with h | h
  · exact h
  · exact absurd h hne

/-! ## The loader -/

lemma char_digit_bounds {c : Char} (h1 : '1' ≤ c) (h2 : c ≤ '9') :
    1 ≤ c.toNat - 48 ∧ c.toNat - 48 ≤ 9 := by
  rw [Char.le_def] at h1 h2
  have a1 : (49 : UInt32) ≤ c.val := h1
  have a2 : c.val ≤ (57 : UInt32) := h2
  have b1 : 49 ≤ c.val.toNat := a1
  have b2 : c.val.toNat ≤ 57 := a2
  constructor <;> simp only [Char.toNat] <;> omega

lemma process_char_ok {value : Nat → Nat} {nnv loc n : Nat} {c : Char} {st' :
    (Nat → Nat) × Nat × Nat} (h : process_char value nnv loc n c = .ok st')
    (hloc : loc < 81) (htail : ∀ j, loc ≤ j → value j = NO_VALUE)
    (hinv : nnv = unsetCount value) :
    st'.2.2 = loc + 1 ∧ st'.2.1 = unsetCount st'.1 ∧
    (∀ j, loc + 1 ≤ j → st'.1 j = NO_VALUE) := by
  rw [process_char] at h
  by_cases hsp : c = ' '
  · rw [if_pos hsp] at h
    cases h
    have hself : Function.update value loc NO_VALUE = value := by
      rw [← htail loc (le_refl loc)]
      exact Function.update_eq_self loc value
    refine ⟨rfl, ?_, ?_⟩
    · show nnv = unsetCount (Function.update value loc NO_VALUE)
      rw [hself]
      exact hinv
    · intro j hj
      show Function.update value loc NO_VALUE j = NO_VALUE
      rw [hself]
      exact htail j (by omega)
  · rw [if_neg hsp] at h
    by_cases hdig : '1' ≤ c ∧ c ≤ '9'
    · rw [if_pos hdig] at h
      cases h
      obtain ⟨hd1, hd9⟩ := char_digit_bounds hdig.1 hdig.2
      have hne : c.toNat - 48 ≠ NO_VALUE := by simp only [NO_VALUE]; omega
      obtain ⟨hu1, hu2⟩ := unsetCount_update hloc (htail loc (le_refl loc)) hne
      refine ⟨rfl, ?_, fun j hj => ?_⟩
      · simp only
        rw [hu1, hinv]
      · simp only
        rw [Function.update_noteq (by omega)]
        exact htail j (by omega)
    · rw [if_neg hdig] at h
      exact absurd h (by simp)

lemma process_line_inv {s : List Char} {n : Nat} :
    ∀ (offs : List Nat) (st st' : (Nat → Nat) × Nat × Nat),
      process_line st n s offs = .ok st' →
      st.2.2 + offs.length ≤ 81 →
      (∀ j, st.2.2 ≤ j → st.1 j = NO_VALUE) → st.2.1 = unsetCount st.1 →
      st'.2.2 = st.2.2 + offs.length ∧ st'.2.1 = unsetCount st'.1 ∧
      (∀ j, st'.2.2 ≤ j → st'.1 j = NO_VALUE) := by
  intro offs
  induction offs with
  | nil =>
    intro st st' h _ htail hinv
    rw [process_line] at h
    cases h
    refine ⟨?_, hinv, htail⟩
    simp
  | cons k rest ih =>
    intro st st' h hlen htail hinv
    rw [process_line] at h
    cases hc : process_char st.1 st.2.1 st.2.2 n (s.getD k ' ') with
    | error e => rw [hc] at h; exact absurd h (by simp)
    | ok st1 =>
      rw [hc] at h
      obtain ⟨h1, h2, h3⟩ := process_char_ok hc (by simp at hlen; omega) htail hinv
      have h3' : ∀ j, st1.2.2 ≤ j → st1.1 j = NO_VALUE := by
        intro j hj
        rw [h1] at hj
        exact h3 j hj
      obtain ⟨r1, r2, r3⟩ := ih st1 st' h (by rw [h1]; simp at hlen ⊢; omega) h3' h2
      refine ⟨?_, r2, r3⟩
      rw [r1, h1]
      simp only [List.length_cons]
      omega

lemma read_lines_inv :
    ∀ (lines : List (List Char)) (value : Nat → Nat) (nnv loc n : Nat) res,
      read_lines lines value nnv loc n = .ok res →
      (∀ j, loc ≤ j → value j = NO_VALUE) → nnv = unsetCount value →
      loc % 9 = 0 → loc ≤ 72 →
      res.2 = unsetCount res.1 := by
  intro lines
  induction lines with
  | nil =>
    intro value nnv loc n res h htail hinv _ _
    rw [read_lines] at h
    cases h
    exact hinv
  | cons l rest ih =>
    intro value nnv loc n res h htail hinv hmod hle
    rw [read_lines] at h
    by_cases hig : ignored_line (rstrip l)
    · rw [if_pos hig] at h
      exact ih value nnv loc (n + 1) res h htail hinv hmod hle
    · rw [if_neg hig] at h
      by_cases hlen : (rstrip l).length ≠ 25
      · rw [if_pos hlen] at h
        exact absurd h (by simp)
      · rw [if_neg hlen] at h
        cases hpl : process_line (value, nnv, loc) (n + 1) (rstrip l) cell_offsets with
        | error e => rw [hpl] at h; exact absurd h (by simp)
        | ok st1 =>
          rw [hpl] at h
          obtain ⟨v1, nnv1, loc1⟩ := st1
          have h' : (if loc1 = 81 then (Except.ok (v1, nnv1) : Except String ((Nat → Nat) × Nat))
              else read_lines rest v1 nnv1 loc1 (n + 1)) = Except.ok res := h
          obtain ⟨r1, r2, r3⟩ := process_line_inv cell_offsets (value, nnv, loc)
            (v1, nnv1, loc1) hpl (by simp only [cell_offsets]; simp; omega) htail hinv
          simp only [cell_offsets, List.length_cons, List.length_nil] at r1
          simp only at r1 r2 r3
          by_cases h81 : loc1 = 81
          · rw [if_pos h81] at h'
            cases h'
            exact r2
          · rw [if_neg h81] at h'
            exact ih v1 nnv1 loc1 (n + 1) res h' r3 r2 (by omega) (by omega)

lemma unsetCount_const : unsetCount (fun _ => NO_VALUE) = 81 := by
  rw [unsetCount]
  rw [Finset.filter_true_of_mem (fun i _ => rfl)]
  exact Finset.card_range 81

lemma read_puzzle_inv {lines : List (List Char)} {p : puzzle_t}
    (h : read_puzzle lines = .ok p) : inv_puzzle p := by
  rw [read_puzzle] at h
  cases hrl : read_lines lines (fun _ => NO_VALUE) 81 0 0 with
  | error e => rw [hrl] at h; exact absurd h (by simp)
  | ok r =>
    obtain ⟨v, nnv⟩ := r
    rw [hrl] at h
    have h1 : (match run_checks v unit_checks with
        | Except.error e => (Except.error e : Except String puzzle_t)
        | Except.ok _ => Except.ok ⟨v, nnv⟩) = Except.ok p := h
    cases hrc : run_checks v unit_checks with
    | error e => rw [hrc] at h1; exact absurd h1 (by simp)
    | ok u =>
      rw [hrc] at h1
      cases h1
      exact read_lines_inv lines (fun _ => NO_VALUE) 81 0 0 (v, nnv) hrl
        (fun _ _ => rfl) unsetCount_const.symm (by norm_num) (by norm_num)

lemma process_char_bad {value : Nat → Nat} {nnv loc n : Nat} {c : Char}
    (hnv : ¬valid_cell_char c) :
    process_char value nnv loc n c = .error (line_error n) := by
  rw [valid_cell_char] at hnv
  rw [process_char, if_neg (fun h => hnv (Or.inl h)), if_neg (fun h => hnv (Or.inr h))]

lemma process_char_good (value : Nat → Nat) (nnv loc n : Nat) {c : Char}
    (hv : valid_cell_char c) :
    ∃ st', process_char value nnv loc n c = .ok st' := by
  rw [process_char]
  rcases hv with hsp | hdig
  · rw [if_pos hsp]
    exact ⟨_, rfl⟩
  · by_cases hsp : c = ' '
    · rw [if_pos hsp]
      exact ⟨_, rfl⟩
    · rw [if_neg hsp, if_pos hdig]
      exact ⟨_, rfl⟩

lemma process_char_line_num {value : Nat → Nat} {nnv loc n m : Nat} {c : Char}
    {st' : (Nat → Nat) × Nat × Nat} (h : process_char value nnv loc n c = .ok st') :
    process_char value nnv loc m c = .ok st' := by
  rw [process_char] at h ⊢
  by_cases hsp : c = ' '
  · rw [if_pos hsp] at h ⊢
    exact h
  · rw [if_neg hsp] at h ⊢
    by_cases hdig : '1' ≤ c ∧ c ≤ '9'
    · rw [if_pos hdig] at h ⊢
      exact h
    · rw [if_neg hdig] at h
      exact absurd h (by simp)

lemma process_line_line_num {s : List Char} {n m : Nat} :
    ∀ (offs : List Nat) (st st' : (Nat → Nat) × Nat × Nat),
      process_line st n s offs = .ok st' → process_line st m s offs = .ok st' := by
  intro offs
  induction offs with
  | nil =>
    intro st st' h
    rw [process_line] at h ⊢
    exact h
  | cons k rest ih =>
    intro st st' h
    rw [process_line] at h ⊢
    cases hc : process_char st.1 st.2.1 st.2.2 n (s.getD k ' ') with
    | error e => rw [hc] at h; exact absurd h (by simp)
    | ok st1 =>
      rw [hc] at h
      rw [process_char_line_num hc]
      exact ih st1 st' h

lemma process_line_bad {s : List Char} {n : Nat} :
    ∀ (offs : List Nat) (st : (Nat → Nat) × Nat × Nat),
      (∃ k ∈ offs, ¬valid_cell_char (s.getD k ' ')) →
      process_line st n s offs = .error (line_error n) := by
  intro offs
  induction offs with
  | nil =>
    rintro st ⟨k, hk, -⟩
    exact absurd hk (by simp)
  | cons k rest ih =>
    rintro st ⟨k0, hk0, hnv⟩
    rw [process_line]
    rcases List.mem_cons.mp hk0 with rfl | hk0'
    · rw [process_char_bad hnv]
    · by_cases hv : valid_cell_char (s.getD k ' ')
      · obtain ⟨st1, hst1⟩ := process_char_good st.1 st.2.1 st.2.2 n hv
        rw [hst1]
        exact ih st1 ⟨k0, hk0', hnv⟩
      · rw [process_char_bad hv]

lemma read_lines_bad_length {l : List Char} {rest : List (List Char)}
    {value : Nat → Nat} {nnv loc n : Nat}
    (hig : ignored_line (rstrip l) = false) (hlen : (rstrip l).length ≠ 25) :
    read_lines (l :: rest) value nnv loc n = .error (line_error (n + 1)) := by
  simp only [read_lines]
  rw [if_neg (by rw [hig]; simp), if_pos hlen]

lemma read_lines_bad_char {l : List Char} {rest : List (List Char)}
    {value : Nat → Nat} {nnv loc n : Nat}
    (hig : ignored_line (rstrip l) = false) (hlen : (rstrip l).length = 25)
    (hbad : ∃ k ∈ cell_offsets, ¬valid_cell_char ((rstrip l).getD k ' ')) :
    read_lines (l :: rest) value nnv loc n = .error (line_error (n + 1)) := by
  simp only [read_lines]
  rw [if_neg (by rw [hig]; simp), if_neg (by rw [hlen]; simp),
    process_line_bad cell_offsets (value, nnv, loc) hbad]

lemma read_lines_filter :
    ∀ (lines : List (List Char)) (value : Nat → Nat) (nnv loc n m : Nat) res,
      read_lines lines value nnv loc n = .ok res →
      read_lines (lines.filter (fun l => !ignored_line (rstrip l))) value nnv loc m
        = .ok res := by
  intro lines
  induction lines with
  | nil =>
    intro value nnv loc n m res h
    rw [List.filter_nil]
    rw [read_lines] at h ⊢
    exact h
  | cons l rest ih =>
    intro value nnv loc n m res h
    rw [read_lines] at h
    rw [List.filter_cons]
    by_cases hig : ignored_line (rstrip l)
    · rw [if_pos hig] at h
      rw [if_neg (by simp [hig])]
      exact ih value nnv loc (n + 1) m res h
    · rw [if_neg hig] at h
      rw [if_pos (by simp at hig; simp [hig])]
      rw [read_lines]
      rw [if_neg hig]
      by_cases hlen : (rstrip l).length ≠ 25
      · rw [if_pos hlen] at h
        exact absurd h (by simp)
      · rw [if_neg hlen] at h ⊢
        cases hpl : process_line (value, nnv, loc) (n + 1) (rstrip l) cell_offsets with
        | error e => rw [hpl] at h; exact absurd h (by simp)
        | ok st1 =>
          rw [hpl] at h
          rw [process_line_line_num cell_offsets (value, nnv, loc) st1 hpl]
          obtain ⟨v1, nnv1, loc1⟩ := st1
          have h' : (if loc1 = 81 then (Except.ok (v1, nnv1) : Except String ((Nat → Nat) × Nat))
              else read_lines rest v1 nnv1 loc1 (n + 1)) = Except.ok res := h
          by_cases h81 : loc1 = 81
          · rw [if_pos h81] at h'
            show (if loc1 = 81 then (Except.ok (v1, nnv1) : Except String ((Nat → Nat) × Nat))
              else read_lines (rest.filter (fun l => !ignored_line (rstrip l))) v1 nnv1 loc1
                (m + 1)) = Except.ok res
            rw [if_pos h81]
            exact h'
          · rw [if_neg h81] at h'
            show (if loc1 = 81 then (Except.ok (v1, nnv1) : Except String ((Nat → Nat) × Nat))
              else read_lines (rest.filter (fun l => !ignored_line (rstrip l))) v1 nnv1 loc1
                (m + 1)) = Except.ok res
            rw [if_neg h81]
            exact ih v1 nnv1 loc1 (n + 1) (m + 1) res h'

lemma check2_go_error {value : Nat → Nat} {msg : String} :
    ∀ (idxs : List Nat) (mask : Nat) e,
      check2_go value msg idxs mask = .error e → e = msg := by
  intro idxs
  induction idxs with
  | nil =>
    intro mask e h
    rw [check2_go] at h
    exact absurd h (by simp)
  | cons i rest ih =>
    intro mask e h
    simp only [check2_go] at h
    by_cases hw : 1 ≤ value i ∧ value i ≤ 9
    · rw [if_pos hw] at h
      by_cases hbit : mask &&& (1 <<< value i) ≠ 0
      · rw [if_pos hbit] at h
        cases h
        rfl
      · rw [if_neg hbit] at h
        exact ih _ e h
    · rw [if_neg hw] at h
      by_cases hnv : value i = NO_VALUE
      · rw [if_pos hnv] at h
        exact ih _ e h
      · rw [if_neg hnv] at h
        cases h
        rfl

lemma check2_go_ok_iff {value : Nat → Nat} {msg : String} :
    ∀ (idxs : List Nat) (mask : Nat),
      check2_go value msg idxs mask = .ok () ↔
        ((∀ i ∈ idxs, (1 ≤ value i ∧ value i ≤ 9) ∨ value i = NO_VALUE) ∧
         (∀ i ∈ idxs, 1 ≤ value i → value i ≤ 9 → mask.testBit (value i) = false) ∧
         (∀ v, 1 ≤ v → v ≤ 9 → idxs.countP (fun i => value i == v) ≤ 1)) := by
  intro idxs
  induction idxs with
  | nil =>
    intro mask
    simp [check2_go]
  | cons i rest ih =>
    intro mask
    simp only [check2_go]
    by_cases hw : 1 ≤ value i ∧ value i ≤ 9
    · rw [if_pos hw]
      by_cases hbit : mask &&& (1 <<< value i) ≠ 0
      · rw [if_pos hbit]
        apply iff_of_false (by simp)
        rintro ⟨-, h2, -⟩
        have h3 := h2 i (List.mem_cons_self i rest) hw.1 hw.2
        rw [(and_one_shift_ne_iff _ _).mp hbit] at h3
        exact absurd h3 (by simp)
      · have hbitf : mask.testBit (value i) = false := by
          cases hb : mask.testBit (value i)
          · rfl
          · exact absurd ((and_one_shift_ne_iff _ _).mpr hb) hbit
        rw [if_neg hbit, ih (mask ||| 1 <<< value i)]
        have hmask' : ∀ x, (mask ||| 1 <<< value i).testBit x
            = (mask.testBit x || decide (value i = x)) := by
          intro x
          rw [Nat.testBit_lor, Nat.one_shiftLeft, Nat.testBit_two_pow]
        constructor
        · rintro ⟨a', b', c'⟩
          refine ⟨?_, ?_, ?_⟩
          · intro j hj
            rcases List.mem_cons.mp hj with rfl | hj'
            · exact Or.inl hw
            · exact a' j hj'
          · intro j hj h1 h9
            rcases List.mem_cons.mp hj with rfl | hj'
            · exact hbitf
            · have hb := b' j hj' h1 h9
              rw [hmask' (value j)] at hb
              rcases Bool.or_eq_false_iff.mp hb with ⟨hm, -⟩
              exact hm
          · intro v h1 h9
            rw [List.countP_cons]
            by_cases hvi : value i = v
            · have hrest0 : rest.countP (fun j => value j == v) = 0 := by
                rw [List.countP_eq_zero]
                intro j hj hjv
                have hjv' : value j = v := by simpa using hjv
                have hb := b' j hj (by omega) (by omega)
                rw [hmask' (value j)] at hb
                rcases Bool.or_eq_false_iff.mp hb with ⟨-, hd⟩
                exact absurd hd (by rw [hjv', hvi]; simp)
              rw [hrest0, if_pos (by simp [hvi])]
            · rw [if_neg (by simp [hvi])]
              have := c' v h1 h9
              omega
        · rintro ⟨a, b, c⟩
          refine ⟨?_, ?_, ?_⟩
          · exact fun j hj => a j (List.mem_cons_of_mem i hj)
          · intro j hj h1 h9
            rw [hmask' (value j)]
            have hm := b j (List.mem_cons_of_mem i hj) h1 h9
            have hne : value i ≠ value j := by
              intro he
              have hc := c (value j) h1 h9
              rw [List.countP_cons] at hc
              have hpos : 0 < rest.countP (fun t => value t == value j) :=
                List.countP_pos_iff.mpr ⟨j, hj, by simp⟩
              rw [if_pos (by simp [he])] at hc
              omega
            rw [hm]
            simp [hne]
          · intro v h1 h9
            have hc := c v h1 h9
            rw [List.countP_cons] at hc
            omega
    · by_cases hnv : value i = NO_VALUE
      · rw [if_neg hw, if_pos hnv, ih mask]
        constructor
        · rintro ⟨a', b', c'⟩
          refine ⟨?_, ?_, ?_⟩
          · intro j hj
            rcases List.mem_cons.mp hj with rfl | hj'
            · exact Or.inr hnv
            · exact a' j hj'
          · intro j hj h1 h9
            rcases List.mem_cons.mp hj with rfl | hj'
            · exact absurd ⟨h1, h9⟩ hw
            · exact b' j hj' h1 h9
          · intro v h1 h9
            have hne : (value i == v) = false := by
              simp only [beq_eq_false_iff_ne, ne_eq, hnv, NO_VALUE]
              omega
            rw [List.countP_cons, hne]
            have := c' v h1 h9
            simp
            omega
        · rintro ⟨a, b, c⟩
          refine ⟨fun j hj => a j (List.mem_cons_of_mem i hj),
            fun j hj h1 h9 => b j (List.mem_cons_of_mem i hj) h1 h9,
            fun v h1 h9 => ?_⟩
          have hc := c v h1 h9
          rw [List.countP_cons] at hc
          omega
      · rw [if_neg hw, if_neg hnv]
        apply iff_of_false (by simp)
        rintro ⟨a, -, -⟩
        rcases a i (List.mem_cons_self i rest) with h | h
        · exact hw h
        · exact hnv h

lemma check2_ok_iff (value : Nat → Nat) (idxs : List Nat) (msg : String) :
    check2 value idxs msg = .ok () ↔ unit_ok value idxs := by
  rw [check2, check2_go_ok_iff idxs 0, unit_ok]
  constructor
  · rintro ⟨a, -, c⟩
    exact ⟨a, c⟩
  · rintro ⟨a, c⟩
    exact ⟨a, fun i _ _ _ => Nat.zero_testBit _, c⟩

lemma check2_error {value : Nat → Nat} {idxs : List Nat} {msg e : String}
    (h : check2 value idxs msg = .error e) : e = msg ∧ ¬unit_ok value idxs := by
  refine ⟨check2_go_error idxs 0 e h, fun hok => ?_⟩
  rw [← check2_ok_iff value idxs msg] at hok
  rw [hok] at h
  exact absurd h (by simp)

lemma run_checks_ok_iff {value : Nat → Nat} :
    ∀ units : List (List Nat × String),
      (run_checks value units = .ok () ↔ ∀ u ∈ units, unit_ok value u.1) := by
  intro units
  induction units with
  | nil => simp [run_checks]
  | cons u rest ih =>
    obtain ⟨idxs, msg⟩ := u
    rw [run_checks]
    cases hc : check2 value idxs msg with
    | error e =>
      apply iff_of_false (by simp)
      rintro hall
      exact (check2_error hc).2 (hall (idxs, msg) (List.mem_cons_self _ _))
    | ok u0 =>
      obtain ⟨⟩ := u0
      rw [ih]
      constructor
      · intro hall w hw
        rcases List.mem_cons.mp hw with rfl | hw'
        · exact (check2_ok_iff value idxs msg).mp hc
        · exact hall w hw'
      · intro hall w hw
        exact hall w (List.mem_cons_of_mem _ hw)

lemma run_checks_error {value : Nat → Nat} :
    ∀ (units : List (List Nat × String)) (e : String),
      run_checks value units = .error e →
      ∃ u ∈ units, ¬unit_ok value u.1 ∧ e = u.2 := by
  intro units
  induction units with
  | nil =>
    intro e h
    rw [run_checks] at h
    exact absurd h (by simp)
  | cons u rest ih =>
    intro e h
    obtain ⟨idxs, msg⟩ := u
    rw [run_checks] at h
    cases hc : check2 value idxs msg with
    | error e' =>
      rw [hc] at h
      cases h
      obtain ⟨he, hnok⟩ := check2_error hc
      exact ⟨(idxs, msg), List.mem_cons_self _ _, hnok, he⟩
    | ok u0 =>
      rw [hc] at h
      obtain ⟨⟩ := u0
      obtain ⟨w, hw, hnok, he⟩ := ih e h
      exact ⟨w, List.mem_cons_of_mem _ hw, hnok, he⟩

/-! ## The thread gate invariant -/

lemma gate_invariant {max_threads : Nat} {s : gate_state}
    (h : gate_reachable max_threads s) :
    s.num_threads = s.live ∧ 0 ≤ s.num_threads ∧ s.num_threads ≤ max_threads := by
  rw [gate_reachable] at h
  induction h with
  | refl => simp
  | @tail b c hsteps hstep ih =>
    cases hstep with
    | lock hl =>
      exact ih
    | fork hl hlt =>
      obtain ⟨i1, i2, i3⟩ := ih
      refine ⟨?_, ?_, ?_⟩
      · show b.num_threads + 1 = ((b.live + 1 : Nat) : Int)
        push_cast
        omega
      · show (0 : Int) ≤ b.num_threads + 1
        omega
      · show b.num_threads + 1 ≤ (max_threads : Int)
        omega
    | skip hl =>
      exact ih
    | finish hlive =>
      obtain ⟨i1, i2, i3⟩ := ih
      refine ⟨?_, ?_, ?_⟩
      · show b.num_threads - 1 = ((b.live - 1 : Nat) : Int)
        omega
      · show (0 : Int) ≤ b.num_threads - 1
        omega
      · show b.num_threads - 1 ≤ (max_threads : Int)
        omega

/-! ## Claim theorems -/

/-- C1: for every grid on which the search completes with unset-count
zero (a completed solution), each of the 9 rows, 9 columns, and 9 3x3
blocks of that grid contains each value 1-9 exactly once.  The entry
grid carries the loader's guarantees (counter invariant, well-formed
cell values, no duplicate among set siblings). -/
theorem C1_completed_solution_valid (p p' : puzzle_t) (b : Best) (f : Nat)
    (hinv : inv_puzzle p) (hwf : wf_puzzle p) (hcons : consistent p)
    (hprop : propagate f p = .done p' b) (hzero : p'.num_no_value = 0) :
    ∀ v, 1 ≤ v → v ≤ 9 → ∀ k, k < 9 →
      occursOnce p' (rowCells k) v ∧ occursOnce p' (colCells k) v ∧
      occursOnce p' (blockCells k) v := by
  obtain ⟨-, hi, hw, hc⟩ := propagate_preserves hprop
  have hinv' := hi hinv
  have hwf' := hw hwf
  have hcons' := hc hcons
  have hcomp := complete_of_inv_zero hinv' hzero hwf'
  intro v h1 h9 k hk
  obtain ⟨rnd, rlen, rlt, rsib⟩ := rowCells_facts k hk
  obtain ⟨cnd, clen, clt, csib⟩ := colCells_facts k hk
  obtain ⟨bnd, blen, blt, bsib⟩ := blockCells_facts k hk
  refine ⟨?_, ?_, ?_⟩
  · exact unit_occursOnce rnd rlen
      (fun i hi' j hj hne => mem_siblings.mpr
        ⟨rlt j hj, (rsib i hi' j hj hne).1, (rsib i hi' j hj hne).2⟩)
      (fun i hi' => hcomp i (rlt i hi')) rlt hcons' v h1 h9
  · exact unit_occursOnce cnd clen
      (fun i hi' j hj hne => mem_siblings.mpr
        ⟨clt j hj, (csib i hi' j hj hne).1, (csib i hi' j hj hne).2⟩)
      (fun i hi' => hcomp i (clt i hi')) clt hcons' v h1 h9
  · exact unit_occursOnce bnd blen
      (fun i hi' j hj hne => mem_siblings.mpr
        ⟨blt j hj, (bsib i hi' j hj hne).1, (bsib i hi' j hj hne).2⟩)
      (fun i hi' => hcomp i (blt i hi')) blt hcons' v h1 h9

/-- C2: for every grid and unset cell, `possible_values` returns the
mask of exactly those values 1-9 not held by any of the cell's 20
siblings (in particular it never includes a value held by a set peer),
and the returned count is the population count of the returned mask. -/
theorem C2_candidate_evaluator (p : puzzle_t) (locidx : Nat)
    (hloc : locidx < 81) (hunset : p.value locidx = NO_VALUE) :
    (siblings locidx).length = 20 ∧
    (possible_values p locidx).1 < 1024 ∧
    (possible_values p locidx).1.testBit 0 = false ∧
    (∀ v, v < 10 → 1 ≤ v →
      ((possible_values p locidx).1.testBit v = true ↔
        ∀ s ∈ siblings locidx, p.value s ≠ v)) ∧
    (∀ s ∈ siblings locidx, p.value s ≠ NO_VALUE →
      (possible_values p locidx).1.testBit (p.value s) = false) ∧
    (possible_values p locidx).2 = popcount (possible_values p locidx).1 := by
  obtain ⟨h1, h2, h3, h4⟩ := possible_values_spec p locidx
  refine ⟨siblings_length locidx hloc, h1, h2, h4, ?_, h3⟩
  intro s hs hset
  by_cases hw10 : p.value s < 10
  · rcases Nat.eq_zero_or_pos (p.value s) with hz | hpos
    · rw [hz]
      exact h2
    · cases hb : (possible_values p locidx).1.testBit (p.value s)
      · rfl
      · exact absurd rfl ((h4 (p.value s) hw10 hpos).mp hb s hs)
  · exact testBit_high_false h1 (by omega)

/-- C3: during propagation, an unset cell with zero candidates makes the
whole pass (and the search call) return at once with nothing counted or
reported; a cell with exactly one candidate is assigned that value and
the unset-count decremented with the progress flag raised; a pass that
made an assignment is followed by another full pass, and the loop exits
only on a pass that assigned nothing (so the returned grid is a
fixpoint of the scan). -/
theorem C3_propagation_fixpoint (p : puzzle_t) (cfg : config_t) (g : gstate_t)
    (fuel : Nat) (i : Nat) (vb : Bool) (bst : Best) (rest : List Nat) :
    (propagate 82 p = .contradiction → find_solutions cfg (fuel + 1) p g = .ok g) ∧
    (p.value i = NO_VALUE → (possible_values p i).2 = 0 →
      scanGo (i :: rest) (p, vb, bst) = none) ∧
    (p.value i = NO_VALUE → (possible_values p i).2 = 1 →
      scan_step (p, vb, bst) i =
        some (⟨Function.update p.value i (pv2val (possible_values p i).1),
          p.num_no_value - 1⟩, true, bst)) ∧
    (∀ f p' b, propagate f p = .done p' b → scan p' = some (p', false, b)) ∧
    (∀ f q b, scan p = some (q, true, b) → propagate (f + 1) p = propagate f q) := by
  refine ⟨?_, ?_, ?_, ?_, ?_⟩
  · intro hp
    rw [find_solutions]
    by_cases h1 : cfg.ctrl_c = true
    · rw [if_pos h1]
    · rw [if_neg h1]
      by_cases h2 : cfg.max_solutions ≠ 0 ∧ g.total_solutions ≥ cfg.max_solutions
      · rw [if_pos h2]
      · rw [if_neg h2, hp]
  · intro hunset hzero
    have hstep : scan_step (p, vb, bst) i = none := by
      simp only [scan_step]
      rw [if_neg (by simpa using hunset), if_pos hzero]
    rw [scanGo, hstep]
  · intro hunset hone
    simp only [scan_step]
    rw [if_neg (by simpa using hunset), if_neg (by omega), if_pos hone]
  · intro f p' b hp
    exact propagate_done_scan hp
  · intro f q b hs
    rw [propagate, hs]
    show (if true = true then propagate f q else PRes.done q b) = propagate f q
    rw [if_pos rfl]

/-- C4: when the fixpoint exits with unset cells left, the tracked
branch cell has between 2 and 9 candidates (the assertion never fails),
it is the first-seen cell with the fewest candidates in scan order, and
the search tries exactly the legal candidate values for it in increasing
order, recursing on a fresh copy of the fixpoint grid per trial. -/
theorem C4_branch_selection (cfg : config_t) (fuel f : Nat) (p p' : puzzle_t)
    (b : Best) (g : gstate_t) (hinv : inv_puzzle p)
    (hprop : propagate f p = .done p' b) (hns : p'.num_no_value ≠ 0) :
    (2 ≤ b.1 ∧ b.1 ≤ 9) ∧
    (b.2.1 < 81 ∧ p'.value b.2.1 = NO_VALUE ∧
      b.1 = (possible_values p' b.2.1).2 ∧ b.2.2 = (possible_values p' b.2.1).1) ∧
    (∀ i, i < 81 → p'.value i = NO_VALUE → b.1 ≤ (possible_values p' i).2) ∧
    (∀ i, i < 81 → p'.value i = NO_VALUE → i < b.2.1 →
      b.1 < (possible_values p' i).2) ∧
    find_solutions cfg fuel p g ≠ .assert_fail ∧
    (∀ v, v ∈ trial_vals b.2.2 ↔
      (1 ≤ v ∧ v ≤ 9 ∧ ∀ s ∈ siblings b.2.1, p'.value s ≠ v)) ∧
    List.Pairwise (· < ·) (trial_vals b.2.2) ∧
    (cfg.ctrl_c = false →
      ¬(cfg.max_solutions ≠ 0 ∧ g.total_solutions ≥ cfg.max_solutions) →
      propagate 82 p = .done p' b →
      find_solutions cfg (fuel + 1) p g =
        run_trials (fun q h => find_solutions cfg fuel q h) p' b.2.1
          (trial_vals b.2.2) g) := by
  have hinv' : inv_puzzle p' := (propagate_preserves hprop).2.1 hinv
  obtain ⟨hb2, hb9, hloc, hun, hbn, hbpv, hmin, hfirst⟩ := branch_best hprop hinv' hns
  refine ⟨⟨hb2, hb9⟩, ⟨hloc, hun, hbn, hbpv⟩, hmin, hfirst, fs_no_assert fuel p g hinv,
    ?_, trial_vals_sorted b.2.2, ?_⟩
  · intro v
    rw [trial_vals_mem, hbpv]
    obtain ⟨-, -, -, h4⟩ := possible_values_spec p' b.2.1
    constructor
    · rintro ⟨h1, h9, hne⟩
      exact ⟨h1, h9, (h4 v (by omega) h1).mp ((and_one_shift_ne_iff _ _).mp hne)⟩
    · rintro ⟨h1, h9, hfree⟩
      exact ⟨h1, h9, (and_one_shift_ne_iff _ _).mpr ((h4 v (by omega) h1).mpr hfree)⟩
  · intro hcc hcap hprop82
    rw [find_solutions, if_neg (by rw [hcc]; simp), if_neg hcap, hprop82]
    show (if p'.num_no_value = 0 then FRes.ok (claim_solution cfg p' g)
        else if 2 ≤ b.1 ∧ b.1 ≤ 9 then
          run_trials (fun q h => find_solutions cfg fuel q h) p' b.2.1
            (trial_vals b.2.2) g
        else FRes.assert_fail) = _
    rw [if_neg hns, if_pos ⟨hb2, hb9⟩]

/-- C5: claiming a solution increments the total-solutions counter and
captures the sequence number; with a finite cap exceeded the counter is
restored and nothing is reported; a counted solution is reported exactly
when its sequence number is 1 or a multiple of the print interval. -/
theorem C5_solution_counting (cfg : config_t) (p' : puzzle_t) (g : gstate_t) :
    ((cfg.max_solutions ≠ 0 ∧ g.total_solutions + 1 > cfg.max_solutions) →
      claim_solution cfg p' g = g) ∧
    (¬(cfg.max_solutions ≠ 0 ∧ g.total_solutions + 1 > cfg.max_solutions) →
      (claim_solution cfg p' g).total_solutions = g.total_solutions + 1 ∧
      ((cfg.print_interval ∣ g.total_solutions + 1 ∨ g.total_solutions + 1 = 1) →
        (claim_solution cfg p' g).reports
          = (p'.value, g.total_solutions + 1) :: g.reports) ∧
      (¬(cfg.print_interval ∣ g.total_solutions + 1 ∨ g.total_solutions + 1 = 1) →
        (claim_solution cfg p' g).reports = g.reports)) ∧
    (∀ fuel p b, cfg.ctrl_c = false →
      ¬(cfg.max_solutions ≠ 0 ∧ g.total_solutions ≥ cfg.max_solutions) →
      propagate 82 p = .done p' b → p'.num_no_value = 0 →
      find_solutions cfg (fuel + 1) p g = .ok (claim_solution cfg p' g)) := by
  have hdvd : cfg.print_interval ∣ g.total_solutions + 1 ↔
      (g.total_solutions + 1) % cfg.print_interval = 0 := by
    constructor
    · rintro ⟨c, hc⟩
      rw [hc]
      exact Nat.mul_mod_right _ _
    · exact Nat.dvd_of_mod_eq_zero
  refine ⟨?_, ?_, ?_⟩
  · intro hcap
    rw [claim_solution]
    rw [if_pos hcap]
    rfl
  · intro hcap
    rw [claim_solution, if_neg hcap]
    by_cases hrep : (g.total_solutions + 1) % cfg.print_interval = 0 ∨
        g.total_solutions + 1 = 1
    · rw [if_pos hrep]
      exact ⟨rfl, fun _ => rfl, fun hn => absurd (by rw [hdvd]; exact hrep) hn⟩
    · rw [if_neg hrep]
      exact ⟨rfl, fun hy => absurd (by rw [← hdvd]; exact hy) hrep, fun _ => rfl⟩
  · intro fuel p b hcc hcap hprop82 hzero
    rw [find_solutions, if_neg (by rw [hcc]; simp), if_neg hcap, hprop82]
    show (if p'.num_no_value = 0 then FRes.ok (claim_solution cfg p' g)
        else if 2 ≤ b.1 ∧ b.1 ≤ 9 then
          run_trials (fun q h => find_solutions cfg fuel q h) p' b.2.1
            (trial_vals b.2.2) g
        else FRes.assert_fail) = _
    rw [if_pos hzero]

/-- C6: cancellation and the solution cap are checked before any
solution could be claimed (at the entry of every search call); a
cancelled or already-capped call returns its state unchanged, counting
and reporting nothing, and even at the claim point a solution found
with the cap already reached is discarded with the counter restored. -/
theorem C6_cancellation_and_cap (cfg : config_t) (p : puzzle_t) (g : gstate_t)
    (fuel : Nat) :
    (cfg.ctrl_c = true → find_solutions cfg (fuel + 1) p g = .ok g) ∧
    (cfg.max_solutions ≠ 0 → cfg.max_solutions ≤ g.total_solutions →
      find_solutions cfg (fuel + 1) p g = .ok g) ∧
    (cfg.max_solutions ≠ 0 → cfg.max_solutions ≤ g.total_solutions →
      claim_solution cfg p g = g) := by
  refine ⟨?_, ?_, ?_⟩
  · intro hcc
    rw [find_solutions, if_pos hcc]
  · intro hmax hle
    rw [find_solutions]
    by_cases hcc : cfg.ctrl_c = true
    · rw [if_pos hcc]
    · rw [if_neg hcc, if_pos ⟨hmax, hle⟩]
  · intro hmax hle
    rw [claim_solution, if_pos ⟨hmax, by omega⟩]
    rfl

/-- C7: the unset-count field equals the number of sentinel cells on the
loader's output, and every single-assignment step of the search (naked
single during a scan, the whole fixpoint, and each branch-trial grid
passed to a recursive call) preserves that equality. -/
theorem C7_unset_count_invariant :
    (∀ (lines : List (List Char)) (p : puzzle_t), read_puzzle lines = .ok p →
      inv_puzzle p) ∧
    (∀ (p : puzzle_t) (i v : Nat), i < 81 → p.value i = NO_VALUE → v ≠ NO_VALUE →
      inv_puzzle p →
      inv_puzzle ⟨Function.update p.value i v, p.num_no_value - 1⟩) ∧
    (∀ (p : puzzle_t) (st' : puzzle_t × Bool × Best), scan p = some st' →
      inv_puzzle p → inv_puzzle st'.1) ∧
    (∀ (f : Nat) (p p' : puzzle_t) (b : Best), propagate f p = .done p' b →
      inv_puzzle p → inv_puzzle p') ∧
    (∀ (f : Nat) (p p' : puzzle_t) (b : Best) (v : Nat), inv_puzzle p →
      propagate f p = .done p' b → p'.num_no_value ≠ 0 → v ∈ trial_vals b.2.2 →
      inv_puzzle ⟨Function.update p'.value b.2.1 v, p'.num_no_value - 1⟩) := by
  refine ⟨?_, ?_, ?_, ?_, ?_⟩
  · exact fun lines p h => read_puzzle_inv h
  · exact fun p i v hi hun hv hinv => assign_preserves_inv hi hun hv hinv
  · intro p st' h hinv
    exact (scanGo_preserves _ _ (fun i hi => List.mem_range.mp hi) h).2.1 hinv
  · exact fun f p p' b h hinv => (propagate_preserves h).2.1 hinv
  · intro f p p' b v hinv hprop hns hv
    have hinv' : inv_puzzle p' := (propagate_preserves hprop).2.1 hinv
    obtain ⟨-, -, hloc, hun, -, -, -, -⟩ := branch_best hprop hinv' hns
    obtain ⟨hv1, hv9, -⟩ := trial_vals_mem.mp hv
    exact assign_preserves_inv hloc hun (by simp only [NO_VALUE]; omega) hinv'

/-- C8: in every reachable state of the thread gate, the active-worker
count is at least 0 and never exceeds the configured concurrency cap. -/
theorem C8_worker_count_bounds (max_threads : Nat) (s : gate_state)
    (h : gate_reachable max_threads s) :
    0 ≤ s.num_threads ∧ s.num_threads ≤ max_threads :=
  ⟨(gate_invariant h).2.1, (gate_invariant h).2.2⟩

/-- C9: the loader ignores blank lines and lines starting with `#` or
`+` (a successful load is unchanged by fully removing them); a
non-ignored line that is not exactly 25 characters, or whose nine fixed
cell offsets hold anything but a space or a digit 1-9, aborts the load
with the message naming that line; a unit check accepts exactly the
duplicate-free units, and a structurally invalid grid aborts the load
with the message naming a violated row, column or grid. -/
theorem C9_loader_validation :
    (∀ (lines : List (List Char)) (p : puzzle_t), read_puzzle lines = .ok p →
      read_puzzle (lines.filter (fun l => !ignored_line (rstrip l))) = .ok p) ∧
    (∀ (l : List Char) (rest : List (List Char)) (value : Nat → Nat) (nnv loc n : Nat),
      ignored_line (rstrip l) = false → (rstrip l).length ≠ 25 →
      read_lines (l :: rest) value nnv loc n = .error (line_error (n + 1))) ∧
    (∀ (l : List Char) (rest : List (List Char)) (value : Nat → Nat) (nnv loc n : Nat),
      ignored_line (rstrip l) = false → (rstrip l).length = 25 →
      (∃ k ∈ cell_offsets, ¬valid_cell_char ((rstrip l).getD k ' ')) →
      read_lines (l :: rest) value nnv loc n = .error (line_error (n + 1))) ∧
    (∀ (value : Nat → Nat) (idxs : List Nat) (msg : String),
      check2 value idxs msg = .ok () ↔ unit_ok value idxs) ∧
    (∀ (lines : List (List Char)) (value : Nat → Nat) (nnv : Nat),
      read_lines lines (fun _ => NO_VALUE) 81 0 0 = .ok (value, nnv) →
      (¬ ∀ u ∈ unit_checks, unit_ok value u.1) →
      ∃ u ∈ unit_checks, ¬unit_ok value u.1 ∧ read_puzzle lines = .error u.2) := by
  refine ⟨?_, ?_, ?_, ?_, ?_⟩
  · intro lines p h
    rw [read_puzzle] at h ⊢
    cases hrl : read_lines lines (fun _ => NO_VALUE) 81 0 0 with
    | error e => rw [hrl] at h; exact absurd h (by simp)
    | ok r =>
      rw [hrl] at h
      rw [read_lines_filter lines (fun _ => NO_VALUE) 81 0 0 0 r hrl]
      exact h
  · intro l rest value nnv loc n hig hlen
    exact read_lines_bad_length hig hlen
  · intro l rest value nnv loc n hig hlen hbad
    exact read_lines_bad_char hig hlen hbad
  · intro value idxs msg
    exact check2_ok_iff value idxs msg
  · intro lines value nnv hrl hbad
    have hnok : run_checks value unit_checks ≠ .ok () := by
      intro hok
      exact hbad ((run_checks_ok_iff unit_checks).mp hok)
    cases hrc : run_checks value unit_checks with
    | ok u =>
      obtain ⟨⟩ := u
      exact absurd hrc hnok
    | error e =>
      obtain ⟨u, hu, hunok, he⟩ := run_checks_error unit_checks e hrc
      refine ⟨u, hu, hunok, ?_⟩
      rw [read_puzzle, hrl]
      show (match run_checks value unit_checks with
        | Except.error e => (Except.error e : Except String puzzle_t)
        | Except.ok _ => Except.ok ⟨value, nnv⟩) = Except.error u.2
      rw [hrc, ← he]

/-- C10: the search never overwrites a set cell: a scan pass and the
whole fixpoint leave set cells unchanged, the branch step writes a cell
that is unset in the fixpoint grid, and every reported solution agrees
with the search's input grid on every set (clue) cell. -/
theorem C10_clues_preserved :
    (∀ (p : puzzle_t) (st' : puzzle_t × Bool × Best), scan p = some st' →
      ∀ i, p.value i ≠ NO_VALUE → st'.1.value i = p.value i) ∧
    (∀ (f : Nat) (p p' : puzzle_t) (b : Best), propagate f p = .done p' b →
      ∀ i, p.value i ≠ NO_VALUE → p'.value i = p.value i) ∧
    (∀ (f : Nat) (p p' : puzzle_t) (b : Best), propagate f p = .done p' b →
      b.1 ≠ 10 → p'.value b.2.1 = NO_VALUE) ∧
    (∀ (cfg : config_t) (fuel : Nat) (p : puzzle_t) (g g' : gstate_t),
      find_solutions cfg fuel p g = .ok g' →
      ∀ r ∈ g'.reports, r ∈ g.reports ∨
        ∀ i, p.value i ≠ NO_VALUE → r.1 i = p.value i) := by
  refine ⟨?_, ?_, ?_, ?_⟩
  · intro p st' h
    exact (scanGo_preserves _ _ (fun i hi => List.mem_range.mp hi) h).1
  · exact fun f p p' b h => (propagate_preserves h).1
  · exact fun f p p' b h hb => (branch_unset h hb).1
  · exact fun cfg fuel p g g' h => fs_reports fuel p g g' h

/-! ## Witnesses -/

/-- Witness for C1: the fixpoint on an already-solved grid completes at
once, and the theorem yields exactly-once occurrence in a row, a column
and a block of that grid. -/
theorem C1_witness :
    occursOnce solvedP (rowCells 0) 5 ∧ occursOnce solvedP (colCells 3) 7 ∧
    occursOnce solvedP (blockCells 8) 9 := by
  have h := C1_completed_solution_valid solvedP solvedP (10, 0, 0) 1
    (show solvedP.num_no_value = unsetCount solvedP.value by decide)
    (show ∀ i < 81, (1 ≤ solvedP.value i ∧ solvedP.value i ≤ 9) ∨
      solvedP.value i = NO_VALUE by decide)
    (show ∀ i < 81, solvedP.value i ≠ NO_VALUE →
      ∀ j ∈ siblings i, solvedP.value j ≠ solvedP.value i by decide) rfl rfl
  exact ⟨(h 5 (by norm_num) (by norm_num) 0 (by norm_num)).1,
    (h 7 (by norm_num) (by norm_num) 3 (by norm_num)).2.1,
    (h 9 (by norm_num) (by norm_num) 8 (by norm_num)).2.2⟩

/-- Witness for C2 on the blank grid at cell 0. -/
theorem C2_witness :
    (siblings 0).length = 20 ∧
    (possible_values blankP 0).2 = popcount (possible_values blankP 0).1 := by
  have h := C2_candidate_evaluator blankP 0 (by norm_num) rfl
  exact ⟨h.1, h.2.2.2.2.2⟩

/-- Witness for C3: the fixpoint on a blank grid exits after one pass
with no assignment, with the first cell (9 candidates) tracked. -/
theorem C3_witness : scan blankP = some (blankP, false, (9, 0, 0x3fe)) :=
  (C3_propagation_fixpoint blankP ⟨0, 1000000, false⟩ ⟨0, []⟩ 1 0 false
    (10, 0, 0) []).2.2.2.1 82 blankP (9, 0, 0x3fe) rfl

/-- Witness for C4: on the blank grid the assertion does not fail. -/
theorem C4_witness :
    find_solutions ⟨0, 1000000, false⟩ 5 blankP ⟨0, []⟩ ≠ .assert_fail :=
  (C4_branch_selection ⟨0, 1000000, false⟩ 5 1 blankP blankP (9, 0, 0x3fe)
    ⟨0, []⟩ (show blankP.num_no_value = unsetCount blankP.value by decide)
    rfl (by decide)).2.2.2.2.1

/-- Witness for C5: the first solution gets sequence number 1 and is
reported. -/
theorem C5_witness :
    (claim_solution ⟨0, 5, false⟩ solvedP ⟨0, []⟩).total_solutions = 1 ∧
    (claim_solution ⟨0, 5, false⟩ solvedP ⟨0, []⟩).reports
      = [(solvedP.value, 1)] := by
  have h := (C5_solution_counting ⟨0, 5, false⟩ solvedP ⟨0, []⟩).2.1 (by decide)
  exact ⟨h.1, h.2.1 (Or.inr rfl)⟩

/-- Witness for C6: a cancelled call and a capped claim both leave the
state unchanged. -/
theorem C6_witness :
    find_solutions ⟨3, 10, true⟩ 4 blankP ⟨7, []⟩ = .ok ⟨7, []⟩ ∧
    claim_solution ⟨3, 10, true⟩ blankP ⟨7, []⟩ = ⟨7, []⟩ := by
  have h := C6_cancellation_and_cap ⟨3, 10, true⟩ blankP ⟨7, []⟩ 3
  exact ⟨h.1 rfl, h.2.2 (by decide) (by decide)⟩

/-- Witness for C7: the loader's output on nine blank lines satisfies
the unset-count invariant. -/
theorem C7_witness :
    read_puzzle blankLines = .ok loadedBlank ∧ inv_puzzle loadedBlank := by
  have h2 : read_puzzle blankLines = .ok loadedBlank := rfl
  exact ⟨h2, C7_unset_count_invariant.1 blankLines loadedBlank h2⟩

/-- Witness for C8: after one lock/fork round the count is 1, within
the bounds for a cap of 4. -/
theorem C8_witness :
    0 ≤ (⟨1, 1, false⟩ : gate_state).num_threads ∧
    (⟨1, 1, false⟩ : gate_state).num_threads ≤ (4 : Nat) := by
  have s1 : gate_step 4 ⟨0, 0, false⟩ ⟨0, 0, true⟩ := gate_step.lock ⟨0, 0, false⟩ rfl
  have s2 : gate_step 4 ⟨0, 0, true⟩ ⟨1, 1, false⟩ :=
    gate_step.fork ⟨0, 0, true⟩ rfl (by norm_num)
  have hchain : gate_reachable 4 ⟨1, 1, false⟩ :=
    Relation.ReflTransGen.tail (Relation.ReflTransGen.tail
      Relation.ReflTransGen.refl s1) s2
  exact C8_worker_count_bounds 4 ⟨1, 1, false⟩ hchain

/-- Witness for C9: a 1-character non-ignored line is rejected with the
message naming line 1. -/
theorem C9_witness :
    read_lines ["x".toList] (fun _ => NO_VALUE) 81 0 0
      = .error (line_error 1) :=
  C9_loader_validation.2.1 "x".toList [] (fun _ => NO_VALUE) 81 0 0
    (by decide) (by decide)

/-- Witness for C10: the solution reported for an already-solved input
agrees with that input everywhere (all its cells are clues). -/
theorem C10_witness :
    (solvedP.value, 1) ∈ ([] : List ((Nat → Nat) × Nat)) ∨
    ∀ i, solvedP.value i ≠ NO_VALUE → (solvedP.value, 1).1 i = solvedP.value i :=
  C10_clues_preserved.2.2.2 ⟨0, 5, false⟩ 2 solvedP ⟨0, []⟩
    ⟨1, [(solvedP.value, 1)]⟩ rfl (solvedP.value, 1) (List.mem_cons_self _ _)
